import Mathlib

/-!
# dev::vector (include/dev_vector.hpp)

A state-passing embedding of the container.  Raw storage lives in an explicit
heap: `operator new` appends a cell of unconstructed slots, `operator delete`
marks the cell as freed (its last contents stay visible, so that objects that
were never destroyed can be seen), and a `vector` object is the triple
`m_data`, `m_size`, `m_capacity` with `m_data` an address into that heap.

The element type `T` is a parameter (`ElemType`): which copies throw, what a
move leaves behind, what value-initialisation yields.

Sizes are natural numbers.  `operator new(sizeof(T) * n)` is taken to either
provide room for `n` slots or to throw `std::bad_alloc`; a block of `c` slots
that exists in memory has `2 * c` below the range of `std::size_t`, so the
doubling in the growth path is computed without wrap-around.
-/

namespace dev

/-- Raw storage of one allocation, slot by slot: `none` is a slot that holds no
constructed object, `some x` a slot holding the live object `x`. -/
abbrev Block (α : Type) := List (Option α)

/-- One allocation of the free store: still allocated, or already passed to
`operator delete` (with the contents it had at that moment). -/
inductive Cell (α : Type) where
  | live (slots : Block α)
  | freed (slots : Block α)
deriving DecidableEq

/-- The free store: the address of an allocation is its position in the list. -/
abbrev Heap (α : Type) := List (Cell α)

/-- The element type `T` of `dev::vector<T>`, as far as the container can observe it. -/
structure ElemType (α : Type) where
  /-- Value of `std::is_nothrow_move_constructible_v<T>`. -/
  nothrow_move : Bool
  /-- Whether copy-constructing from this value throws. -/
  copy_throws : α → Bool
  /-- State in which the move constructor leaves its source. -/
  moved_from : α → α
  /-- Outcome of `T()` for the `k`-th value-initialisation of a call: `none` when it throws. -/
  default_ctor : Nat → Option α
  /-- Value of `a == b` on elements. -/
  eq : α → α → Bool
  /-- Whether `operator new(sizeof(T) * n)` throws `std::bad_alloc`. -/
  bad_alloc : Nat → Bool

/-- The data members of `dev::vector<T>`; `m_data = none` is `nullptr`. -/
structure vector (α : Type) where
  m_data : Option Nat
  m_size : Nat
  m_capacity : Nat
deriving DecidableEq

/-- Result of a member function: whether an exception left the call, the heap
and the object afterwards. -/
structure Outcome (α : Type) where
  threw : Bool
  heap : Heap α
  self : vector α

/-- Largest value of `std::size_t`. -/
def SIZE_MAX : Nat := 2 ^ 64 - 1

/-! ## The free store -/

/-- Whether `p` is `nullptr` or the address of an allocation that has not been freed. -/
def is_live {α : Type} (h : Heap α) (p : Option Nat) : Bool :=
  match p with
  | none => true
  | some a =>
    match h[a]? with
    | some (Cell.live _) => true
    | _ => false

/-- The slots behind pointer `p` (nothing behind `nullptr` or a freed block). -/
def load {α : Type} (h : Heap α) (p : Option Nat) : Block α :=
  match p with
  | none => []
  | some a =>
    match h[a]? with
    | some (Cell.live b) => b
    | _ => []

/-- Overwrite the slots behind pointer `p`. -/
def store {α : Type} (h : Heap α) (p : Option Nat) (b : Block α) : Heap α :=
  match p with
  | none => h
  | some a =>
    match h[a]? with
    | some (Cell.live _) => h.set a (Cell.live b)
    | _ => h

/-- Effect of `operator new(sizeof(T) * n)` when it succeeds: the fresh address
and the heap extended by `n` unconstructed slots. -/
def operator_new {α : Type} (h : Heap α) (n : Nat) : Nat × Heap α :=
  (h.length, h ++ [Cell.live (List.replicate n none)])

/-- Effect of `operator delete(p)`: no effect on `nullptr`, otherwise the block is freed. -/
def operator_delete {α : Type} (h : Heap α) (p : Option Nat) : Heap α :=
  match p with
  | none => h
  | some a =>
    match h[a]? with
    | some (Cell.live b) => h.set a (Cell.freed b)
    | _ => h

/-- Effect of `std::construct_at(p + i, x)`. -/
def construct_at {α : Type} (h : Heap α) (p : Option Nat) (i : Nat) (x : α) : Heap α :=
  store h p ((load h p).set i (some x))

/-- Effect of `std::destroy_at(p + i)`. -/
def destroy_at {α : Type} (h : Heap α) (p : Option Nat) (i : Nat) : Heap α :=
  store h p ((load h p).set i none)

/-- The loop `for (; i < i + n; ++i) std::destroy_at(block + i)` on the slots of one block. -/
def destroy_slots {α : Type} : Block α → Nat → Nat → Block α
  | b, _, 0 => b
  | b, i, n + 1 => destroy_slots (b.set i none) (i + 1) n

/-- The loop `for (i = lo; i < hi; ++i) std::destroy_at(p + i)`. -/
def destroy_range {α : Type} (h : Heap α) (p : Option Nat) (lo hi : Nat) : Heap α :=
  store h p (destroy_slots (load h p) lo (hi - lo))

/-- The loop `for (; ...; ++i) std::construct_at(block + i)` of `resize`, `n` iterations
from slot `i`, the `k`-th value-initialisation first; stops at the first one that throws. -/
def construct_slots {α : Type} (T : ElemType α) : Block α → Nat → Nat → Nat → Bool × Block α
  | b, _, _, 0 => (true, b)
  | b, i, k, n + 1 =>
    match T.default_ctor k with
    | none => (false, b)
    | some x => construct_slots T (b.set i (some x)) (i + 1) (k + 1) n

/-! ## Library algorithms on uninitialised storage -/

/-- The copy loop of `std::uninitialized_copy`: copy-construct the sources into the
destination slots `i, i+1, ...`; when a copy throws, the objects already
constructed (slots `0 .. i`) are destroyed and the exception leaves.  A source
slot without an object is skipped. -/
def copy_loop {α : Type} (T : ElemType α) : List (Option α) → Nat → Block α → Bool × Block α
  | [], _, d => (true, d)
  | none :: rest, i, d => copy_loop T rest (i + 1) d
  | some x :: rest, i, d =>
    if T.copy_throws x then (false, destroy_slots d 0 i)
    else copy_loop T rest (i + 1) (d.set i (some x))

/-- Model of `std::uninitialized_copy(src, src + count, dest)`: success flag and the
destination afterwards. -/
def uninitialized_copy {α : Type} (T : ElemType α) (src : Block α) (count : Nat)
    (dest : Block α) : Bool × Block α :=
  copy_loop T (src.take count) 0 dest

/-- Model of `std::uninitialized_fill_n(dest, n, value)`: `n` copies of `value`. -/
def uninitialized_fill_n {α : Type} (T : ElemType α) (dest : Block α) (n : Nat)
    (value : α) : Bool × Block α :=
  copy_loop T (List.replicate n (some value)) 0 dest

/-- The construction loop of `std::uninitialized_move` for a move constructor that
cannot throw: slot `i, i+1, ...` of the destination receives the source objects. -/
def move_loop {α : Type} : List (Option α) → Nat → Block α → Block α
  | [], _, d => d
  | none :: rest, i, d => move_loop rest (i + 1) d
  | some x :: rest, i, d => move_loop rest (i + 1) (d.set i (some x))

/-- Model of `std::uninitialized_move(src, src + count, dest)` for a non-throwing move:
the destination afterwards, and the source with its first `count` objects moved from. -/
def uninitialized_move {α : Type} (T : ElemType α) (src : Block α) (count : Nat)
    (dest : Block α) : Block α × Block α :=
  (move_loop (src.take count) 0 dest,
   (src.take count).map (Option.map T.moved_from) ++ src.drop count)

/-- What `relocate_into_uninitialized` leaves behind. -/
structure Relocation (α : Type) where
  ok : Bool
  dest : Block α
  src : Block α

/-- The helper `vector::relocate_into_uninitialized(dest, src, count)`: move when the move constructor
is `noexcept`, copy otherwise. -/
def relocate_into_uninitialized {α : Type} (T : ElemType α) (dest src : Block α)
    (count : Nat) : Relocation α :=
  if T.nothrow_move then
    ⟨true, (uninitialized_move T src count dest).1, (uninitialized_move T src count dest).2⟩
  else
    ⟨(uninitialized_copy T src count dest).1, (uninitialized_copy T src count dest).2, src⟩

/-! ## Member functions -/

/-- The constructor `vector()`: allocates one slot, constructs nothing.  The object is `none`
when the constructor throws. -/
def vector_default {α : Type} (T : ElemType α) (h : Heap α) : Heap α × Option (vector α) :=
  if T.bad_alloc 1 then (h, none)
  else ((operator_new h 1).2, some ⟨some (operator_new h 1).1, 0, 1⟩)

/-- The constructor `vector(const vector& other)`. -/
def vector_copy {α : Type} (T : ElemType α) (h : Heap α) (other : vector α) :
    Heap α × Option (vector α) :=
  if other.m_size = 0 then (h, some ⟨none, 0, 0⟩)
  else
    let m_capacity := other.m_capacity
    if T.bad_alloc m_capacity then (h, none)
    else
      let m_data := some (operator_new h m_capacity).1
      let h1 := (operator_new h m_capacity).2
      let r := uninitialized_copy T (load h1 other.m_data) other.m_size (load h1 m_data)
      let h2 := store h1 m_data r.2
      if r.1 then (h2, some ⟨m_data, other.m_size, m_capacity⟩)
      else (operator_delete h2 m_data, none)

/-- The constructor `vector(vector&& other)`: the new object and `other` afterwards. -/
def vector_move {α : Type} (other : vector α) : vector α × vector α :=
  (⟨other.m_data, other.m_size, other.m_capacity⟩, ⟨none, 0, 0⟩)

/-- The constructor `vector(std::initializer_list<T> list)`. -/
def vector_init_list {α : Type} (T : ElemType α) (h : Heap α) (list : List α) :
    Heap α × Option (vector α) :=
  let n := list.length
  if n = 0 then (h, some ⟨none, 0, 0⟩)
  else if T.bad_alloc n then (h, none)
  else
    let m_data := some (operator_new h n).1
    let h1 := (operator_new h n).2
    let r := uninitialized_copy T (list.map some) n (load h1 m_data)
    let h2 := store h1 m_data r.2
    if r.1 then (h2, some ⟨m_data, n, n⟩)
    else (operator_delete h2 m_data, none)

/-- The constructor `vector(std::size_t n, const T& value)`. -/
def vector_fill {α : Type} (T : ElemType α) (h : Heap α) (n : Nat) (value : α) :
    Heap α × Option (vector α) :=
  if n = 0 then (h, some ⟨none, 0, 0⟩)
  else if T.bad_alloc n then (h, none)
  else
    let m_data := some (operator_new h n).1
    let h1 := (operator_new h n).2
    let r := uninitialized_fill_n T (load h1 m_data) n value
    let h2 := store h1 m_data r.2
    if r.1 then (h2, some ⟨m_data, n, n⟩)
    else (operator_delete h2 m_data, none)

/-- The destructor `~vector()`. -/
def destructor {α : Type} (h : Heap α) (v : vector α) : Heap α :=
  if v.m_data.isSome then operator_delete (destroy_range h v.m_data 0 v.m_size) v.m_data
  else h

/-- The member `empty()`. -/
def empty {α : Type} (v : vector α) : Bool := v.m_size == 0

/-- The member `size()`. -/
def size {α : Type} (v : vector α) : Nat := v.m_size

/-- The member `capacity()`. -/
def capacity {α : Type} (v : vector α) : Nat := v.m_capacity

/-- Growth policy shared by `push_back` and `emplace_back`:
`(m_capacity == 0) ? 1 : (m_capacity * 2)`. -/
def grown_capacity (m_capacity : Nat) : Nat :=
  if m_capacity = 0 then 1 else m_capacity * 2

/-- The member `push_back(U&& value)`.  `value` is the outcome of constructing a `T` from the
forwarded argument: `some x` when that yields the object `x`, `none` when it throws. -/
def push_back {α : Type} (T : ElemType α) (h : Heap α) (v : vector α) (value : Option α) :
    Outcome α :=
  if v.m_size < v.m_capacity then
    match value with
    | none => ⟨true, h, v⟩
    | some x => ⟨false, construct_at h v.m_data v.m_size x, ⟨v.m_data, v.m_size + 1, v.m_capacity⟩⟩
  else
    let new_capacity := grown_capacity v.m_capacity
    if T.bad_alloc new_capacity then ⟨true, h, v⟩
    else
      let new_data := some (operator_new h new_capacity).1
      let h1 := (operator_new h new_capacity).2
      let constructed := 0
      match value with
      | none => ⟨true, operator_delete (destroy_range h1 new_data 0 constructed) new_data, v⟩
      | some x =>
        let h2 := construct_at h1 new_data v.m_size x
        let r := relocate_into_uninitialized T (load h2 new_data) (load h2 v.m_data) v.m_size
        let h3 := store (store h2 new_data r.dest) v.m_data r.src
        if r.ok then
          let h4 := destroy_range h3 v.m_data 0 v.m_size
          let h5 := operator_delete h4 v.m_data
          ⟨false, h5, ⟨new_data, v.m_size + 1, new_capacity⟩⟩
        else
          ⟨true, operator_delete (destroy_range h3 new_data 0 constructed) new_data, v⟩

/-- The member `operator[](idx)` read: the object in slot `idx`, if there is one. -/
def index {α : Type} (h : Heap α) (v : vector α) (idx : Nat) : Option α :=
  ((load h v.m_data)[idx]?).join

/-- Write through the reference returned by `operator[](idx)`: `v[idx] = x`. -/
def assign_index {α : Type} (h : Heap α) (v : vector α) (idx : Nat) (x : α) : Heap α :=
  store h v.m_data ((load h v.m_data).set idx (some x))

/-- The member `swap(vector& other)`: `*this` and `other` afterwards. -/
def swap {α : Type} (self other : vector α) : vector α × vector α :=
  (⟨other.m_data, other.m_size, other.m_capacity⟩, ⟨self.m_data, self.m_size, self.m_capacity⟩)

/-- The member `operator=(const vector& other)`: copy into a temporary, swap, and let the
temporary's destructor run.  `other` is only read before `*this` is written, so
self-assignment is the call with `other` equal to `self`. -/
def copy_assign {α : Type} (T : ElemType α) (h : Heap α) (self other : vector α) : Outcome α :=
  match vector_copy T h other with
  | (h1, none) => ⟨true, h1, self⟩
  | (h1, some temp) => ⟨false, destructor h1 (swap self temp).2, (swap self temp).1⟩

/-- The member `operator=(vector&& other)`; `same_object` is the test `this == &other`.
Returns the heap, `*this` and `other` afterwards. -/
def move_assign {α : Type} (h : Heap α) (self other : vector α) (same_object : Bool) :
    Heap α × vector α × vector α :=
  if same_object then (h, self, other)
  else
    let h1 := destroy_range h self.m_data 0 self.m_size
    let h2 := operator_delete h1 self.m_data
    (h2, ⟨other.m_data, other.m_size, other.m_capacity⟩, ⟨none, 0, 0⟩)

/-- The member `pop_back()`; `--m_size` on `std::size_t` wraps at zero. -/
def pop_back {α : Type} (h : Heap α) (v : vector α) : Outcome α :=
  let last := if v.m_size = 0 then SIZE_MAX else v.m_size - 1
  ⟨false, destroy_at h v.m_data last, ⟨v.m_data, last, v.m_capacity⟩⟩

/-- The member `reserve(new_capacity)`.  The counter of the clean-up loop over the old block is
declared without an initialiser (`for(std::size_t i; ...)`); `i` is the value it starts with. -/
def reserve {α : Type} (T : ElemType α) (h : Heap α) (v : vector α) (new_capacity : Nat)
    (i : Nat) : Outcome α :=
  if new_capacity ≤ v.m_capacity then ⟨false, h, v⟩
  else if T.bad_alloc new_capacity then ⟨true, h, v⟩
  else
    let new_data := some (operator_new h new_capacity).1
    let h1 := (operator_new h new_capacity).2
    let r := relocate_into_uninitialized T (load h1 new_data) (load h1 v.m_data) v.m_size
    let h2 := store (store h1 new_data r.dest) v.m_data r.src
    if r.ok then
      let h3 := destroy_range h2 v.m_data i v.m_size
      let h4 := operator_delete h3 v.m_data
      ⟨false, h4, ⟨new_data, v.m_size, new_capacity⟩⟩
    else
      ⟨true, operator_delete h2 new_data, v⟩

/-- The member `resize(new_size)`; `i` is passed on to `reserve`. -/
def resize {α : Type} (T : ElemType α) (h : Heap α) (v : vector α) (new_size : Nat)
    (i : Nat) : Outcome α :=
  if new_size = v.m_size then ⟨false, h, v⟩
  else if new_size < v.m_size then
    ⟨false, destroy_range h v.m_data new_size v.m_size, ⟨v.m_data, new_size, v.m_capacity⟩⟩
  else
    let r := reserve T h v new_size i
    if r.threw then r
    else
      let c := construct_slots T (load r.heap r.self.m_data) r.self.m_size 0
        (new_size - r.self.m_size)
      let h1 := store r.heap r.self.m_data c.2
      if c.1 then ⟨false, h1, ⟨r.self.m_data, new_size, r.self.m_capacity⟩⟩
      else ⟨true, h1, r.self⟩

/-- The member `emplace_back(Args&&... args)`.  `args` is the outcome of constructing a `T` from
the forwarded arguments: `some x` when that yields the object `x`, `none` when it throws. -/
def emplace_back {α : Type} (T : ElemType α) (h : Heap α) (v : vector α) (args : Option α) :
    Outcome α :=
  if v.m_size < v.m_capacity then
    match args with
    | none => ⟨true, h, v⟩
    | some x => ⟨false, construct_at h v.m_data v.m_size x, ⟨v.m_data, v.m_size + 1, v.m_capacity⟩⟩
  else
    let new_capacity := grown_capacity v.m_capacity
    if T.bad_alloc new_capacity then ⟨true, h, v⟩
    else
      let new_data := some (operator_new h new_capacity).1
      let h1 := (operator_new h new_capacity).2
      let old_size := v.m_size
      let r := relocate_into_uninitialized T (load h1 new_data) (load h1 v.m_data) old_size
      let h2 := store (store h1 new_data r.dest) v.m_data r.src
      if r.ok then
        match args with
        | none => ⟨true, operator_delete (destroy_range h2 new_data 0 old_size) new_data, v⟩
        | some x =>
          let h3 := construct_at h2 new_data old_size x
          let h4 := destroy_range h3 v.m_data 0 old_size
          let h5 := operator_delete h4 v.m_data
          ⟨false, h5, ⟨new_data, old_size + 1, new_capacity⟩⟩
      else
        ⟨true, operator_delete (destroy_range h2 new_data 0 0) new_data, v⟩

/-- The member `clear()`. -/
def clear {α : Type} (h : Heap α) (v : vector α) : Outcome α :=
  ⟨false, destroy_range h v.m_data 0 v.m_size, ⟨v.m_data, 0, v.m_capacity⟩⟩

/-- The member `shrink_to_fit()`. -/
def shrink_to_fit {α : Type} (T : ElemType α) (h : Heap α) (v : vector α) : Outcome α :=
  if v.m_size = v.m_capacity then ⟨false, h, v⟩
  else if v.m_size = 0 then ⟨false, operator_delete h v.m_data, ⟨none, 0, 0⟩⟩
  else if T.bad_alloc v.m_size then ⟨true, h, v⟩
  else
    let new_data := some (operator_new h v.m_size).1
    let h1 := (operator_new h v.m_size).2
    let r := relocate_into_uninitialized T (load h1 new_data) (load h1 v.m_data) v.m_size
    let h2 := store (store h1 new_data r.dest) v.m_data r.src
    if r.ok then
      let h3 := destroy_range h2 v.m_data 0 v.m_size
      let h4 := operator_delete h3 v.m_data
      ⟨false, h4, ⟨new_data, v.m_size, v.m_size⟩⟩
    else
      ⟨true, operator_delete h2 new_data, v⟩

/-- The member `front()`: the slot `m_data[0]`. -/
def front {α : Type} (h : Heap α) (v : vector α) : Option α :=
  ((load h v.m_data)[0]?).join

/-- The member `back()`: the slot `m_data[m_size - 1]`. -/
def back {α : Type} (h : Heap α) (v : vector α) : Option α :=
  ((load h v.m_data)[v.m_size - 1]?).join

/-- The member `at(idx)`: throws `std::out_of_range` when `idx >= m_size`, otherwise the slot
`m_data[idx]`. -/
def vector.at {α : Type} (h : Heap α) (v : vector α) (idx : Nat) : Except String (Option α) :=
  if idx ≥ v.m_size then Except.error "The requested index is out of range !"
  else Except.ok ((load h v.m_data)[idx]?).join

/-- The comparison loop of `operator==` from index `i`, `n` iterations: `false` at the first
pair with `!(a[i] == b[i])`. -/
def eq_loop {α : Type} (T : ElemType α) (a b : Block α) : Nat → Nat → Bool
  | _, 0 => true
  | i, n + 1 =>
    match (a[i]?).join, (b[i]?).join with
    | some x, some y => if !(T.eq x y) then false else eq_loop T a b (i + 1) n
    | _, _ => eq_loop T a b (i + 1) n

/-- The member `operator==(const vector& other)`. -/
def operator_eq {α : Type} (T : ElemType α) (h : Heap α) (self other : vector α) : Bool :=
  if self.m_size ≠ other.m_size then false
  else eq_loop T (load h self.m_data) (load h other.m_data) 0 self.m_size

/-- A call of `at(idx)` as a step of the program: whether it throws, and the heap and the
object after the call.  Neither branch of the function writes to a member or to storage. -/
def at_outcome {α : Type} (h : Heap α) (v : vector α) (idx : Nat) : Outcome α :=
  ⟨decide (idx ≥ v.m_size), h, v⟩


/-! ## Observations -/

/-- The live elements of `v`, in index order: the objects in slots `[0, m_size)`. -/
def elems {α : Type} (h : Heap α) (v : vector α) : List α :=
  ((load h v.m_data).take v.m_size).reduceOption

/-- The class invariant `m_size <= m_capacity`. -/
def Inv {α : Type} (v : vector α) : Prop := v.m_size ≤ v.m_capacity

/-- The object `v` is well formed in heap `h`: `m_size <= m_capacity`, `m_data` is null or an
allocated block, the block has `m_capacity` slots, and slots `[0, m_size)` hold objects. -/
def WF {α : Type} (h : Heap α) (v : vector α) : Prop :=
  v.m_size ≤ v.m_capacity ∧ is_live h v.m_data = true ∧
    (load h v.m_data).length = v.m_capacity ∧
    ((load h v.m_data).take v.m_size).all Option.isSome = true

/-- Two objects do not share storage. -/
def Separate {α : Type} (a b : vector α) : Prop :=
  a.m_data = none ∨ a.m_data ≠ b.m_data

instance {α : Type} (v : vector α) : Decidable (Inv v) :=
  inferInstanceAs (Decidable (v.m_size ≤ v.m_capacity))

instance {α : Type} (h : Heap α) (v : vector α) : Decidable (WF h v) :=
  inferInstanceAs (Decidable (v.m_size ≤ v.m_capacity ∧ is_live h v.m_data = true ∧
    (load h v.m_data).length = v.m_capacity ∧
    ((load h v.m_data).take v.m_size).all Option.isSome = true))

instance {α : Type} (a b : vector α) : Decidable (Separate a b) :=
  inferInstanceAs (Decidable (a.m_data = none ∨ a.m_data ≠ b.m_data))

/-! ## Element types used in the examples -/

/-- A numeric element type such as `int`: nothing throws, a move is a copy, value-initialisation
gives zero, allocation succeeds. -/
def int_type : ElemType Int :=
  ⟨true, fun _ => false, fun x => x, fun _ => some 0, fun a b => a == b, fun _ => false⟩

/-- A string-like element type (lengths stand for the strings): the move constructor is
`noexcept` and leaves the source empty, copies do not throw, allocation succeeds. -/
def string_type : ElemType Nat :=
  ⟨true, fun _ => false, fun _ => 0, fun _ => some 0, fun a b => a == b, fun _ => false⟩

/-- An element type with a throwing move constructor whose copy constructor throws on the
value `13` and whose default constructor throws at its second use in a call. -/
def throwing_type : ElemType Nat :=
  ⟨false, fun x => x == 13, fun x => x, fun k => if k = 1 then none else some 7,
    fun a b => a == b, fun _ => false⟩


/-! ## Lemmas on blocks -/

theorem take_set_succ {β : Type} (b : List β) (i : Nat) (a : β) (hi : i < b.length) :
    (b.set i a).take (i + 1) = b.take i ++ [a] := by
  induction b generalizing i with
  | nil => simp at hi
  | cons y ys ih =>
    cases i with
    | zero => simp
    | succ j =>
      simp only [List.length_cons, Nat.add_lt_add_iff_right] at hi
      simp [ih j hi]

theorem take_set_of_le {β : Type} (b : List β) (i n : Nat) (a : β) (hn : n ≤ i) :
    (b.set i a).take n = b.take n := by
  induction b generalizing i n with
  | nil => simp
  | cons y ys ih =>
    cases i with
    | zero =>
      have : n = 0 := by omega
      subst this; simp
    | succ j =>
      cases n with
      | zero => simp
      | succ m => simp [ih j m (by omega)]

theorem drop_set_of_lt {β : Type} (b : List β) (i n : Nat) (a : β) (hn : i < n) :
    (b.set i a).drop n = b.drop n := by
  induction b generalizing i n with
  | nil => simp
  | cons y ys ih =>
    cases n with
    | zero => omega
    | succ m =>
      cases i with
      | zero => simp
      | succ j => simp [ih j m (by omega)]

theorem length_destroy_slots {α : Type} (b : Block α) (i n : Nat) :
    (destroy_slots b i n).length = b.length := by
  induction n generalizing b i with
  | zero => simp [destroy_slots]
  | succ k ih => simp [destroy_slots, ih]

theorem take_destroy_slots {α : Type} (b : Block α) (i n m : Nat) (hm : m ≤ i) :
    (destroy_slots b i n).take m = b.take m := by
  induction n generalizing b i with
  | zero => simp [destroy_slots]
  | succ k ih =>
    simp only [destroy_slots]
    rw [ih _ _ (by omega), take_set_of_le _ _ _ _ hm]

theorem map_some_reduceOption {α : Type} (l : List (Option α))
    (hl : l.all Option.isSome = true) : l.reduceOption.map some = l := by
  induction l with
  | nil => simp
  | cons y ys ih =>
    cases y with
    | none => simp at hl
    | some x =>
      simp only [List.all_cons, Option.isSome_some, Bool.true_and] at hl
      simp [List.reduceOption_cons_of_some, ih hl]

theorem reduceOption_map_some {α : Type} (xs : List α) : (xs.map some).reduceOption = xs := by
  induction xs with
  | nil => simp
  | cons y ys ih => simp [List.reduceOption_cons_of_some, ih]

theorem all_isSome_map_some {α : Type} (xs : List α) :
    (xs.map some).all Option.isSome = true := by
  induction xs with
  | nil => simp
  | cons y ys ih => simp

/-- The construction loop on a run of live sources fills the slots from `i` on. -/
theorem move_loop_map_some {α : Type} (xs : List α) (i : Nat) (d : Block α)
    (hd : i + xs.length ≤ d.length) :
    move_loop (xs.map some) i d = d.take i ++ xs.map some ++ d.drop (i + xs.length) := by
  induction xs generalizing i d with
  | nil => simp [move_loop]
  | cons y ys ih =>
    simp only [List.length_cons] at hd
    simp only [List.map_cons, move_loop, List.length_cons]
    rw [ih (i + 1) (d.set i (some y)) (by simp; omega)]
    rw [take_set_succ d i (some y) (by omega), drop_set_of_lt d i _ (some y) (by omega)]
    simp [Nat.add_assoc, Nat.add_comm 1]

theorem copy_loop_of_no_throw {α : Type} (T : ElemType α) (src : List (Option α)) (i : Nat)
    (d : Block α) (hs : ∀ x, some x ∈ src → T.copy_throws x = false) :
    copy_loop T src i d = (true, move_loop src i d) := by
  induction src generalizing i d with
  | nil => simp [copy_loop, move_loop]
  | cons y ys ih =>
    cases y with
    | none =>
      simp only [copy_loop, move_loop]
      exact ih _ _ (fun x hx => hs x (List.mem_cons_of_mem _ hx))
    | some x =>
      have hx : T.copy_throws x = false := hs x (List.mem_cons_self _ _)
      simp only [copy_loop, move_loop, hx, Bool.false_eq_true, if_false]
      exact ih _ _ (fun z hz => hs z (List.mem_cons_of_mem _ hz))

theorem copy_loop_fst_eq_true {α : Type} (T : ElemType α) (src : List (Option α)) (i : Nat)
    (d : Block α) (hok : (copy_loop T src i d).1 = true) :
    ∀ x, some x ∈ src → T.copy_throws x = false := by
  induction src generalizing i d with
  | nil => simp
  | cons y ys ih =>
    cases y with
    | none =>
      simp only [copy_loop] at hok
      intro x hx
      simp only [List.mem_cons, reduceCtorEq, false_or] at hx
      exact ih _ _ hok x hx
    | some z =>
      simp only [copy_loop] at hok
      by_cases hz : T.copy_throws z = true
      · simp [hz] at hok
      · simp only [hz, Bool.false_eq_true, if_false] at hok
        intro x hx
        simp only [List.mem_cons, Option.some.injEq] at hx
        rcases hx with rfl | hx
        · simpa using hz
        · exact ih _ _ hok x hx

/-- A relocation that succeeds puts the live sources into the first slots of the destination. -/
theorem relocate_dest_of_ok {α : Type} (T : ElemType α) (dest src : Block α) (xs : List α)
    (hsrc : src.take xs.length = xs.map some) (hd : xs.length ≤ dest.length)
    (hok : (relocate_into_uninitialized T dest src xs.length).ok = true) :
    (relocate_into_uninitialized T dest src xs.length).dest
      = xs.map some ++ dest.drop xs.length := by
  unfold relocate_into_uninitialized at hok ⊢
  by_cases hm : T.nothrow_move = true
  · simp only [hm, if_true, uninitialized_move, hsrc]
    rw [move_loop_map_some xs 0 dest (by omega)]
    simp
  · simp only [hm, Bool.false_eq_true, if_false, uninitialized_copy, hsrc] at hok ⊢
    rw [copy_loop_of_no_throw T _ 0 dest (copy_loop_fst_eq_true T _ 0 dest hok)]
    simp only []
    rw [move_loop_map_some xs 0 dest (by omega)]
    simp

/-! ## Lemmas on the free store -/

theorem is_live_lt {α : Type} (h : Heap α) (a : Nat) (hl : is_live h (some a) = true) :
    a < h.length := by
  by_contra hlt
  have : h[a]? = none := List.getElem?_eq_none (by omega)
  simp [is_live, this] at hl

theorem fresh_ne_of_live {α : Type} (h : Heap α) (p : Option Nat) (n : Nat)
    (hl : is_live h p = true) : p ≠ some (operator_new h n).1 := by
  cases p with
  | none => simp
  | some a =>
    have := is_live_lt h a hl
    simp only [operator_new, ne_eq, Option.some.injEq]
    omega

theorem load_new_fresh {α : Type} (h : Heap α) (n : Nat) :
    load (operator_new h n).2 (some (operator_new h n).1) = List.replicate n (none : Option α) := by
  simp [load, operator_new]

theorem is_live_new_fresh {α : Type} (h : Heap α) (n : Nat) :
    is_live (operator_new h n).2 (some (operator_new h n).1) = true := by
  simp [is_live, operator_new]

theorem load_new_old {α : Type} (h : Heap α) (p : Option Nat) (n : Nat)
    (hl : is_live h p = true) : load (operator_new h n).2 p = load h p := by
  cases p with
  | none => simp [load]
  | some a =>
    have := is_live_lt h a hl
    simp [load, operator_new, List.getElem?_append_left this]

theorem is_live_new_old {α : Type} (h : Heap α) (p : Option Nat) (n : Nat)
    (hl : is_live h p = true) : is_live (operator_new h n).2 p = true := by
  cases p with
  | none => simp [is_live]
  | some a =>
    have := is_live_lt h a hl
    simpa [is_live, operator_new, List.getElem?_append_left this] using hl

theorem load_store_same {α : Type} (h : Heap α) (a : Nat) (b : Block α)
    (hl : is_live h (some a) = true) : load (store h (some a) b) (some a) = b := by
  have hlt := is_live_lt h a hl
  simp only [is_live] at hl
  simp only [load, store]
  split at hl
  · rename_i c hc
    simp [hc, List.getElem?_set_self hlt]
  · simp at hl

theorem load_store_ne {α : Type} (h : Heap α) (p q : Option Nat) (b : Block α)
    (hne : p ≠ q) : load (store h p b) q = load h q := by
  cases p with
  | none => simp [store]
  | some a =>
    cases q with
    | none => simp [load]
    | some c =>
      have hac : a ≠ c := fun e => hne (by rw [e])
      simp only [store]
      split
      · simp [load, List.getElem?_set_ne hac]
      · rfl

theorem is_live_store {α : Type} (h : Heap α) (p q : Option Nat) (b : Block α) :
    is_live (store h p b) q = is_live h q := by
  cases p with
  | none => simp [store]
  | some a =>
    cases q with
    | none => simp [is_live]
    | some c =>
      simp only [store]
      split
      · rename_i s hs
        by_cases hac : a = c
        · subst hac
          have hlt : a < h.length := by
            by_contra hlt
            have : h[a]? = none := List.getElem?_eq_none (by omega)
            simp [this] at hs
          simp [is_live, hs, List.getElem?_set_self hlt]
        · simp [is_live, List.getElem?_set_ne hac]
      · rfl

theorem load_delete_ne {α : Type} (h : Heap α) (p q : Option Nat) (hne : p ≠ q) :
    load (operator_delete h p) q = load h q := by
  cases p with
  | none => simp [operator_delete]
  | some a =>
    cases q with
    | none => simp [load]
    | some c =>
      have hac : a ≠ c := fun e => hne (by rw [e])
      simp only [operator_delete]
      split
      · simp [load, List.getElem?_set_ne hac]
      · rfl

theorem is_live_delete_ne {α : Type} (h : Heap α) (p q : Option Nat) (hne : p ≠ q) :
    is_live (operator_delete h p) q = is_live h q := by
  cases p with
  | none => simp [operator_delete]
  | some a =>
    cases q with
    | none => simp [is_live]
    | some c =>
      have hac : a ≠ c := fun e => hne (by rw [e])
      simp only [operator_delete]
      split
      · simp [is_live, List.getElem?_set_ne hac]
      · rfl

theorem load_destroy_range_ne {α : Type} (h : Heap α) (p q : Option Nat) (lo hi : Nat)
    (hne : p ≠ q) : load (destroy_range h p lo hi) q = load h q := by
  simp [destroy_range, load_store_ne h p q _ hne]

theorem is_live_destroy_range {α : Type} (h : Heap α) (p q : Option Nat) (lo hi : Nat) :
    is_live (destroy_range h p lo hi) q = is_live h q := by
  simp [destroy_range, is_live_store]

/-- Destroying and releasing the block behind `p` leaves every other block as it was. -/
theorem load_retire_ne {α : Type} (g : Heap α) (p q : Option Nat) (lo hi : Nat) (hne : p ≠ q) :
    load (operator_delete (destroy_range g p lo hi) p) q = load g q := by
  rw [load_delete_ne _ _ _ hne, load_destroy_range_ne _ _ _ _ _ hne]

theorem is_live_retire_ne {α : Type} (g : Heap α) (p q : Option Nat) (lo hi : Nat)
    (hne : p ≠ q) :
    is_live (operator_delete (destroy_range g p lo hi) p) q = is_live g q := by
  rw [is_live_delete_ne _ _ _ hne, is_live_destroy_range]

/-- After both blocks of a relocation are written back, the fresh block holds the destination. -/
theorem load_relocated {α : Type} (g : Heap α) (p : Option Nat) (a : Nat) (D S : Block α)
    (hne : p ≠ some a) (hl : is_live g (some a) = true) :
    load (store (store g (some a) D) p S) (some a) = D := by
  rw [load_store_ne _ _ _ _ hne, load_store_same _ _ _ hl]

theorem is_live_relocated {α : Type} (g : Heap α) (p q : Option Nat) (a : Nat) (D S : Block α) :
    is_live (store (store g (some a) D) p S) q = is_live g q := by
  rw [is_live_store, is_live_store]

/-! ## Well-formed objects -/

theorem wf_take {α : Type} (h : Heap α) (v : vector α) (hwf : WF h v) :
    (load h v.m_data).take v.m_size = (elems h v).map some :=
  (map_some_reduceOption _ hwf.2.2.2).symm

theorem wf_length_elems {α : Type} (h : Heap α) (v : vector α) (hwf : WF h v) :
    (elems h v).length = v.m_size := by
  have h1 := congrArg List.length (wf_take h v hwf)
  simp only [List.length_take, List.length_map, hwf.2.2.1] at h1
  rw [← h1]
  exact Nat.min_eq_left hwf.1

theorem wf_data_ne_none {α : Type} (h : Heap α) (v : vector α) (hwf : WF h v)
    (hc : 0 < v.m_capacity) : ∃ a, v.m_data = some a := by
  cases hp : v.m_data with
  | none =>
    have := hwf.2.2.1
    rw [hp] at this
    simp [load] at this
    omega
  | some a => exact ⟨a, rfl⟩

theorem grown_capacity_gt (c : Nat) : c < grown_capacity c := by
  unfold grown_capacity
  split <;> omega

/-- Construction in the first free slot of a block with spare capacity. -/
theorem construct_spare_spec {α : Type} (h : Heap α) (v : vector α) (x : α) (hwf : WF h v)
    (hlt : v.m_size < v.m_capacity) :
    WF (construct_at h v.m_data v.m_size x) ⟨v.m_data, v.m_size + 1, v.m_capacity⟩ ∧
      elems (construct_at h v.m_data v.m_size x) ⟨v.m_data, v.m_size + 1, v.m_capacity⟩
        = elems h v ++ [x] := by
  obtain ⟨a, ha⟩ := wf_data_ne_none h v hwf (by omega)
  have hlive : is_live h (some a) = true := by rw [← ha]; exact hwf.2.1
  have hlen : (load h (some a)).length = v.m_capacity := by rw [← ha]; exact hwf.2.2.1
  have htake := wf_take h v hwf
  rw [ha] at htake
  have hld : load (construct_at h (some a) v.m_size x) (some a)
      = (load h (some a)).set v.m_size (some x) := by
    simp [construct_at, load_store_same h a _ hlive]
  have htk : (load (construct_at h (some a) v.m_size x) (some a)).take (v.m_size + 1)
      = (elems h v ++ [x]).map some := by
    rw [hld, take_set_succ _ _ _ (by omega), htake]
    simp
  rw [ha]
  refine ⟨⟨by simp only []; omega, ?_, ?_, ?_⟩, ?_⟩
  · simp [construct_at, is_live_store, hlive]
  · simp only [hld, List.length_set, hlen]
  · simp only [htk, all_isSome_map_some]
  · simp only [elems, htk, reduceOption_map_some]

/-- The state reached when a reallocation has put `ys` into the first slots of a fresh block. -/
theorem adopt_spec {α : Type} (hf : Heap α) (a n : Nat) (ys : List α) (D : Block α)
    (hlive : is_live hf (some a) = true) (hload : load hf (some a) = D)
    (hlen : D.length = n) (hys : ys.length ≤ n) (htake : D.take ys.length = ys.map some) :
    WF hf ⟨some a, ys.length, n⟩ ∧ elems hf ⟨some a, ys.length, n⟩ = ys := by
  refine ⟨⟨hys, hlive, ?_, ?_⟩, ?_⟩
  · simp only [hload, hlen]
  · simp only [hload, htake, all_isSome_map_some]
  · simp only [elems, hload, htake, reduceOption_map_some]

/-! ## push_back and emplace_back -/

theorem push_back_spec {α : Type} (T : ElemType α) (h : Heap α) (v : vector α) (x : α)
    (hwf : WF h v) (hok : (push_back T h v (some x)).threw = false) :
    WF (push_back T h v (some x)).heap (push_back T h v (some x)).self ∧
      (push_back T h v (some x)).self.m_size = v.m_size + 1 ∧
      elems (push_back T h v (some x)).heap (push_back T h v (some x)).self
        = elems h v ++ [x] ∧
      (push_back T h v (some x)).self.m_capacity
        = if v.m_size < v.m_capacity then v.m_capacity else grown_capacity v.m_capacity := by
  by_cases hlt : v.m_size < v.m_capacity
  · have hs := construct_spare_spec h v x hwf hlt
    simp only [push_back, hlt, if_true]
    exact ⟨hs.1, trivial, hs.2, trivial⟩
  · have hsz : v.m_size = v.m_capacity := Nat.le_antisymm hwf.1 (Nat.le_of_not_lt hlt)
    have hg := grown_capacity_gt v.m_capacity
    simp only [push_back, hlt, if_false] at hok ⊢
    by_cases hba : T.bad_alloc (grown_capacity v.m_capacity) = true
    · simp [hba] at hok
    · simp only [hba, Bool.false_eq_true, if_false] at hok ⊢
      have hne := fresh_ne_of_live h v.m_data (grown_capacity v.m_capacity) hwf.2.1
      have hlen := wf_length_elems h v hwf
      have hold : load (construct_at (operator_new h (grown_capacity v.m_capacity)).2
          (some (operator_new h (grown_capacity v.m_capacity)).1) v.m_size x) v.m_data
          = load h v.m_data := by
        rw [construct_at, load_store_ne _ _ _ _ (Ne.symm hne), load_new_old _ _ _ hwf.2.1]
      have hnew : load (construct_at (operator_new h (grown_capacity v.m_capacity)).2
          (some (operator_new h (grown_capacity v.m_capacity)).1) v.m_size x)
          (some (operator_new h (grown_capacity v.m_capacity)).1)
          = (List.replicate (grown_capacity v.m_capacity) none).set v.m_size (some x) := by
        rw [construct_at, load_store_same _ _ _ (is_live_new_fresh _ _), load_new_fresh]
      rw [hold, hnew] at hok ⊢
      by_cases hr : (relocate_into_uninitialized T
          ((List.replicate (grown_capacity v.m_capacity) none).set v.m_size (some x))
          (load h v.m_data) v.m_size).ok = true
      · simp only [hr, if_true]
        have hd := relocate_dest_of_ok T
          ((List.replicate (grown_capacity v.m_capacity) none).set v.m_size (some x))
          (load h v.m_data) (elems h v) (by rw [hlen]; exact wf_take h v hwf)
          (by simp [hlen]; omega) (by rw [hlen]; exact hr)
        rw [hlen] at hd
        have hcell : (List.replicate (grown_capacity v.m_capacity) (none : Option α)).set
            v.m_size (some x) = List.replicate v.m_size none ++ some x ::
              List.replicate (grown_capacity v.m_capacity - v.m_size - 1) none := by
          rw [List.set_eq_take_append_cons_drop]
          simp only [List.length_replicate, hsz, hg, if_true, List.take_replicate,
            List.drop_replicate]
          congr 2
          · omega
        have hA := adopt_spec
          (operator_delete (destroy_range (store (store
            (construct_at (operator_new h (grown_capacity v.m_capacity)).2
              (some (operator_new h (grown_capacity v.m_capacity)).1) v.m_size x)
            (some (operator_new h (grown_capacity v.m_capacity)).1)
            (relocate_into_uninitialized T
              ((List.replicate (grown_capacity v.m_capacity) none).set v.m_size (some x))
              (load h v.m_data) v.m_size).dest) v.m_data
            (relocate_into_uninitialized T
              ((List.replicate (grown_capacity v.m_capacity) none).set v.m_size (some x))
              (load h v.m_data) v.m_size).src) v.m_data 0 v.m_size) v.m_data)
          (operator_new h (grown_capacity v.m_capacity)).1 (grown_capacity v.m_capacity)
          (elems h v ++ [x])
          (elems h v |>.map some |>.append (((List.replicate (grown_capacity v.m_capacity)
            none).set v.m_size (some x)).drop v.m_size))
          (by
            rw [is_live_delete_ne _ _ _ hne, is_live_destroy_range, is_live_store,
              is_live_store, construct_at, is_live_store, is_live_new_fresh])
          (by
            rw [load_delete_ne _ _ _ hne, load_destroy_range_ne _ _ _ _ _ hne,
              load_store_ne _ _ _ _ hne, load_store_same, hd]
            · rfl
            · rw [construct_at, is_live_store, is_live_new_fresh])
          (by simp [hlen]; omega)
          (by simp [hlen]; omega)
          (by
            rw [hcell]
            simp [hlen, List.take_append_eq_append_take, List.drop_append_eq_append_drop])
        simp only [List.length_append, List.length_singleton, hlen] at hA
        exact ⟨hA.1, trivial, hA.2, trivial⟩
      · simp [hr] at hok

theorem emplace_back_spec {α : Type} (T : ElemType α) (h : Heap α) (v : vector α) (x : α)
    (hwf : WF h v) (hok : (emplace_back T h v (some x)).threw = false) :
    WF (emplace_back T h v (some x)).heap (emplace_back T h v (some x)).self ∧
      (emplace_back T h v (some x)).self.m_size = v.m_size + 1 ∧
      elems (emplace_back T h v (some x)).heap (emplace_back T h v (some x)).self
        = elems h v ++ [x] ∧
      (emplace_back T h v (some x)).self.m_capacity
        = if v.m_size < v.m_capacity then v.m_capacity else grown_capacity v.m_capacity := by
  by_cases hlt : v.m_size < v.m_capacity
  · have hs := construct_spare_spec h v x hwf hlt
    simp only [emplace_back, hlt, if_true]
    exact ⟨hs.1, trivial, hs.2, trivial⟩
  · have hsz : v.m_size = v.m_capacity := Nat.le_antisymm hwf.1 (Nat.le_of_not_lt hlt)
    have hg := grown_capacity_gt v.m_capacity
    simp only [emplace_back, hlt, if_false] at hok ⊢
    by_cases hba : T.bad_alloc (grown_capacity v.m_capacity) = true
    · simp [hba] at hok
    · simp only [hba, Bool.false_eq_true, if_false] at hok ⊢
      have hne := fresh_ne_of_live h v.m_data (grown_capacity v.m_capacity) hwf.2.1
      have hlen := wf_length_elems h v hwf
      rw [load_new_old _ _ _ hwf.2.1, load_new_fresh] at hok ⊢
      by_cases hr : (relocate_into_uninitialized T
          (List.replicate (grown_capacity v.m_capacity) none)
          (load h v.m_data) v.m_size).ok = true
      · simp only [hr, if_true]
        have hd := relocate_dest_of_ok T (List.replicate (grown_capacity v.m_capacity) none)
          (load h v.m_data) (elems h v) (by rw [hlen]; exact wf_take h v hwf)
          (by simp [hlen]; omega) (by rw [hlen]; exact hr)
        rw [hlen] at hd
        have hlive2 : is_live (store (store (operator_new h (grown_capacity v.m_capacity)).2
            (some (operator_new h (grown_capacity v.m_capacity)).1)
            (relocate_into_uninitialized T (List.replicate (grown_capacity v.m_capacity) none)
              (load h v.m_data) v.m_size).dest) v.m_data
            (relocate_into_uninitialized T (List.replicate (grown_capacity v.m_capacity) none)
              (load h v.m_data) v.m_size).src)
            (some (operator_new h (grown_capacity v.m_capacity)).1) = true := by
          rw [is_live_relocated, is_live_new_fresh]
        have hA := adopt_spec
          (operator_delete (destroy_range (construct_at (store (store
            (operator_new h (grown_capacity v.m_capacity)).2
            (some (operator_new h (grown_capacity v.m_capacity)).1)
            (relocate_into_uninitialized T (List.replicate (grown_capacity v.m_capacity) none)
              (load h v.m_data) v.m_size).dest) v.m_data
            (relocate_into_uninitialized T (List.replicate (grown_capacity v.m_capacity) none)
              (load h v.m_data) v.m_size).src)
            (some (operator_new h (grown_capacity v.m_capacity)).1) v.m_size x)
            v.m_data 0 v.m_size) v.m_data)
          (operator_new h (grown_capacity v.m_capacity)).1 (grown_capacity v.m_capacity)
          (elems h v ++ [x])
          (((elems h v).map some ++ (List.replicate (grown_capacity v.m_capacity)
            none).drop v.m_size).set v.m_size (some x))
          (by
            rw [is_live_retire_ne _ _ _ _ _ hne, construct_at, is_live_store, hlive2])
          (by
            rw [load_retire_ne _ _ _ _ _ hne, construct_at, load_store_same _ _ _ hlive2,
              load_relocated _ _ _ _ _ hne (is_live_new_fresh _ _), hd])
          (by simp [hlen]; omega)
          (by simp [hlen]; omega)
          (by
            have := take_set_succ ((elems h v).map some ++
              (List.replicate (grown_capacity v.m_capacity) none).drop v.m_size) v.m_size
              (some x) (by simp [hlen]; omega)
            simp only [List.length_append, List.length_singleton, hlen, this]
            simp [hlen, List.take_append_eq_append_take])
        simp only [List.length_append, List.length_singleton, hlen] at hA
        exact ⟨hA.1, trivial, hA.2, trivial⟩
      · simp only [hr, Bool.false_eq_true, if_false] at hok
        simp at hok

/-! ## The invariant `m_size <= m_capacity` -/

theorem inv_push_back {α : Type} (T : ElemType α) (h : Heap α) (v : vector α)
    (value : Option α) (hv : Inv v) : Inv (push_back T h v value).self := by
  have hg := grown_capacity_gt v.m_capacity
  unfold Inv at hv ⊢
  unfold push_back
  split
  · cases value <;> simp only [] <;> omega
  · simp only []
    split
    · exact hv
    · cases value with
      | none => exact hv
      | some x =>
        simp only []
        split
        · simp only []; omega
        · exact hv

theorem inv_emplace_back {α : Type} (T : ElemType α) (h : Heap α) (v : vector α)
    (args : Option α) (hv : Inv v) : Inv (emplace_back T h v args).self := by
  have hg := grown_capacity_gt v.m_capacity
  unfold Inv at hv ⊢
  unfold emplace_back
  split
  · cases args <;> simp only [] <;> omega
  · simp only []
    split
    · exact hv
    · split
      · cases args with
        | none => exact hv
        | some x => simp only []; omega
      · exact hv

theorem inv_reserve {α : Type} (T : ElemType α) (h : Heap α) (v : vector α)
    (n i : Nat) (hv : Inv v) : Inv (reserve T h v n i).self := by
  unfold Inv at hv ⊢
  unfold reserve
  split
  · exact hv
  · split
    · exact hv
    · simp only []
      split
      · simp only []; omega
      · exact hv

theorem reserve_capacity_ge {α : Type} (T : ElemType α) (h : Heap α) (v : vector α)
    (n i : Nat) (hok : (reserve T h v n i).threw = false) :
    n ≤ (reserve T h v n i).self.m_capacity ∧
      (reserve T h v n i).self.m_size = v.m_size := by
  unfold reserve at hok ⊢
  split
  · exact ⟨by assumption, rfl⟩
  · rename_i hn
    simp only [hn, if_false] at hok
    split
    · rename_i hb
      simp [hb] at hok
    · simp only []
      split
      · exact ⟨Nat.le_refl _, rfl⟩
      · rename_i hb hr
        simp [hb, hr] at hok

theorem inv_resize {α : Type} (T : ElemType α) (h : Heap α) (v : vector α)
    (n i : Nat) (hv : Inv v) : Inv (resize T h v n i).self := by
  have hres := inv_reserve T h v n i hv
  unfold Inv at hv hres ⊢
  unfold resize
  split
  · exact hv
  · split
    · simp only []; omega
    · simp only []
      split
      · exact hres
      · rename_i hthrew
        have hcap := reserve_capacity_ge T h v n i (by simpa using hthrew)
        split
        · simp only []; exact hcap.1
        · exact hres

theorem inv_shrink_to_fit {α : Type} (T : ElemType α) (h : Heap α) (v : vector α)
    (hv : Inv v) : Inv (shrink_to_fit T h v).self := by
  unfold Inv at hv ⊢
  unfold shrink_to_fit
  split
  · exact hv
  · split
    · simp
    · split
      · exact hv
      · simp only []
        split
        · simp
        · exact hv

theorem inv_vector_copy {α : Type} (T : ElemType α) (h : Heap α) (other w : vector α)
    (ho : Inv other) (hw : (vector_copy T h other).2 = some w) : Inv w := by
  unfold Inv at ho ⊢
  unfold vector_copy at hw
  split at hw
  · simp only [Option.some.injEq] at hw
    subst hw
    simp
  · simp only [] at hw
    split at hw
    · simp at hw
    · split at hw
      · simp only [Option.some.injEq] at hw
        subst hw
        exact ho
      · simp at hw

theorem inv_copy_assign {α : Type} (T : ElemType α) (h : Heap α) (v other : vector α)
    (hv : Inv v) (ho : Inv other) : Inv (copy_assign T h v other).self := by
  unfold copy_assign
  split
  · exact hv
  · rename_i h1 temp heq
    have := inv_vector_copy T h other temp ho (by rw [heq])
    simpa [swap, Inv] using this

theorem inv_constructors {α : Type} (T : ElemType α) (h : Heap α) (n : Nat) (x : α)
    (list : List α) :
    (∀ w, (vector_default T h).2 = some w → Inv w) ∧
    (∀ w, (vector_fill T h n x).2 = some w → Inv w) ∧
    (∀ w, (vector_init_list T h list).2 = some w → Inv w) := by
  refine ⟨?_, ?_, ?_⟩
  · intro w hw
    unfold vector_default at hw
    split at hw
    · simp at hw
    · simp only [Option.some.injEq] at hw
      subst hw
      simp [Inv]
  · intro w hw
    unfold vector_fill at hw
    split at hw
    · simp only [Option.some.injEq] at hw
      subst hw
      simp [Inv]
    · split at hw
      · simp at hw
      · simp only [] at hw
        split at hw
        · simp only [Option.some.injEq] at hw
          subst hw
          simp [Inv]
        · simp at hw
  · intro w hw
    unfold vector_init_list at hw
    simp only [] at hw
    split at hw
    · simp only [Option.some.injEq] at hw
      subst hw
      simp [Inv]
    · split at hw
      · simp at hw
      · split at hw
        · simp only [Option.some.injEq] at hw
          subst hw
          simp [Inv]
        · simp at hw

/-! ## Capacity after an append -/

theorem grown_capacity_eq_max (c : Nat) : grown_capacity c = max 1 (2 * c) := by
  unfold grown_capacity
  split <;> omega

theorem push_back_fields {α : Type} (T : ElemType α) (h : Heap α) (v : vector α)
    (value : Option α) :
    ((push_back T h v value).threw = false →
      (push_back T h v value).self.m_size = v.m_size + 1 ∧
      (push_back T h v value).self.m_capacity
        = if v.m_size < v.m_capacity then v.m_capacity else grown_capacity v.m_capacity) ∧
    ((push_back T h v value).threw = true → (push_back T h v value).self = v) := by
  unfold push_back
  split
  · cases value <;> simp
  · simp only []
    split
    · simp
    · cases value with
      | none => simp
      | some x =>
        simp only []
        split <;> simp

theorem emplace_back_fields {α : Type} (T : ElemType α) (h : Heap α) (v : vector α)
    (args : Option α) :
    ((emplace_back T h v args).threw = false →
      (emplace_back T h v args).self.m_size = v.m_size + 1 ∧
      (emplace_back T h v args).self.m_capacity
        = if v.m_size < v.m_capacity then v.m_capacity else grown_capacity v.m_capacity) ∧
    ((emplace_back T h v args).threw = true → (emplace_back T h v args).self = v) := by
  unfold emplace_back
  split
  · cases args <;> simp
  · simp only []
    split
    · simp
    · split
      · cases args <;> simp
      · simp

/-! ## Failure of an append -/

theorem relocate_src_of_not_ok {α : Type} (T : ElemType α) (dest src : Block α) (count : Nat)
    (hr : ¬ (relocate_into_uninitialized T dest src count).ok = true) :
    (relocate_into_uninitialized T dest src count).src = src := by
  unfold relocate_into_uninitialized at hr ⊢
  split
  · rename_i hm
    simp [hm] at hr
  · rfl

theorem load_store_load {α : Type} (g g2 : Heap α) (p : Option Nat)
    (hl : is_live g p = true) : load (store g p (load g2 p)) p = load g2 p := by
  cases p with
  | none => simp [load]
  | some a => exact load_store_same g a _ hl

/-- A `push_back` that throws leaves the object and the storage behind it as they were. -/
theorem push_back_strong_guarantee {α : Type} (T : ElemType α) (h : Heap α) (v : vector α)
    (value : Option α) (hwf : WF h v) (hthrew : (push_back T h v value).threw = true) :
    (push_back T h v value).self = v ∧
      load (push_back T h v value).heap v.m_data = load h v.m_data ∧
      is_live (push_back T h v value).heap v.m_data = true := by
  unfold push_back at hthrew ⊢
  split at hthrew
  · rename_i hlt
    simp only [hlt, if_true]
    cases value with
    | none => exact ⟨by trivial, by trivial, hwf.2.1⟩
    | some x => simp at hthrew
  · rename_i hlt
    simp only [hlt, if_false] at hthrew ⊢
    by_cases hba : T.bad_alloc (grown_capacity v.m_capacity) = true
    · simp only [hba, if_true]
      exact ⟨by trivial, by trivial, hwf.2.1⟩
    · simp only [hba, Bool.false_eq_true, if_false] at hthrew ⊢
      have hne := fresh_ne_of_live h v.m_data (grown_capacity v.m_capacity) hwf.2.1
      cases value with
      | none =>
        simp only []
        refine ⟨by trivial, ?_, ?_⟩
        · rw [load_retire_ne _ _ _ _ _ (Ne.symm hne), load_new_old _ _ _ hwf.2.1]
        · rw [is_live_retire_ne _ _ _ _ _ (Ne.symm hne), is_live_new_old _ _ _ hwf.2.1]
      | some x =>
        simp only [] at hthrew ⊢
        split at hthrew
        · simp at hthrew
        · rename_i hr
          simp only [hr, Bool.false_eq_true, if_false]
          refine ⟨by trivial, ?_, ?_⟩
          · rw [load_retire_ne _ _ _ _ _ (Ne.symm hne), relocate_src_of_not_ok T _ _ _ hr,
              load_store_load, construct_at,
              load_store_ne _ _ _ _ (Ne.symm hne), load_new_old _ _ _ hwf.2.1]
            rw [is_live_store, construct_at, is_live_store, is_live_new_old _ _ _ hwf.2.1]
          · rw [is_live_retire_ne _ _ _ _ _ (Ne.symm hne), is_live_relocated, construct_at,
              is_live_store, is_live_new_old _ _ _ hwf.2.1]

theorem relocate_src_of_copy {α : Type} (T : ElemType α) (dest src : Block α) (count : Nat)
    (hm : T.nothrow_move = false) :
    (relocate_into_uninitialized T dest src count).src = src := by
  simp [relocate_into_uninitialized, hm]

/-- An `emplace_back` that throws leaves the object as it was, and its storage too unless the
elements had already been relocated by move when the new element's constructor threw. -/
theorem emplace_back_guarantee_unless_moved {α : Type} (T : ElemType α) (h : Heap α)
    (v : vector α) (args : Option α) (hwf : WF h v)
    (hthrew : (emplace_back T h v args).threw = true) :
    (emplace_back T h v args).self = v ∧
      is_live (emplace_back T h v args).heap v.m_data = true ∧
      ((v.m_size < v.m_capacity ∨ T.nothrow_move = false ∨
          T.bad_alloc (grown_capacity v.m_capacity) = true) →
        load (emplace_back T h v args).heap v.m_data = load h v.m_data) := by
  unfold emplace_back at hthrew ⊢
  split at hthrew
  · rename_i hlt
    simp only [hlt, if_true]
    cases args with
    | none => exact ⟨by trivial, hwf.2.1, fun _ => by trivial⟩
    | some x => simp at hthrew
  · rename_i hlt
    simp only [hlt, if_false] at hthrew ⊢
    by_cases hba : T.bad_alloc (grown_capacity v.m_capacity) = true
    · simp only [hba, if_true]
      exact ⟨by trivial, hwf.2.1, fun _ => by trivial⟩
    · simp only [hba, Bool.false_eq_true, if_false] at hthrew ⊢
      have hne := fresh_ne_of_live h v.m_data (grown_capacity v.m_capacity) hwf.2.1
      have hlive1 := is_live_new_old h v.m_data (grown_capacity v.m_capacity) hwf.2.1
      split at hthrew
      · rename_i hr
        simp only [hr, if_true]
        cases args with
        | some x => simp at hthrew
        | none =>
          simp only []
          refine ⟨by trivial, ?_, fun hcase => ?_⟩
          · rw [is_live_retire_ne _ _ _ _ _ (Ne.symm hne), is_live_relocated, hlive1]
          · have hm : T.nothrow_move = false := by
              rcases hcase with hc | hc | hc
              · exact hc.elim
              · exact hc
              · exact hc.elim
            rw [load_retire_ne _ _ _ _ _ (Ne.symm hne), relocate_src_of_copy T _ _ _ hm,
              load_store_load _ _ _ (by rw [is_live_store]; exact hlive1),
              load_new_old _ _ _ hwf.2.1]
      · rename_i hr
        simp only [hr, Bool.false_eq_true, if_false]
        refine ⟨by trivial, ?_, fun _ => ?_⟩
        · rw [is_live_retire_ne _ _ _ _ _ (Ne.symm hne), is_live_relocated, hlive1]
        · rw [load_retire_ne _ _ _ _ _ (Ne.symm hne), relocate_src_of_not_ok T _ _ _ hr,
            load_store_load _ _ _ (by rw [is_live_store]; exact hlive1),
            load_new_old _ _ _ hwf.2.1]

/-! ## reserve -/

theorem reserve_spec {α : Type} (T : ElemType α) (h : Heap α) (v : vector α) (n i : Nat)
    (hwf : WF h v) (hok : (reserve T h v n i).threw = false) :
    WF (reserve T h v n i).heap (reserve T h v n i).self ∧
      (reserve T h v n i).self.m_size = v.m_size ∧
      elems (reserve T h v n i).heap (reserve T h v n i).self = elems h v ∧
      (reserve T h v n i).self.m_capacity
        = if n ≤ v.m_capacity then v.m_capacity else n := by
  by_cases hn : n ≤ v.m_capacity
  · simp only [reserve, hn, if_true]
    exact ⟨hwf, trivial, trivial, trivial⟩
  · simp only [reserve, hn, if_false] at hok ⊢
    by_cases hba : T.bad_alloc n = true
    · simp [hba] at hok
    · simp only [hba, Bool.false_eq_true, if_false] at hok ⊢
      have hne := fresh_ne_of_live h v.m_data n hwf.2.1
      have hlen := wf_length_elems h v hwf
      rw [load_new_old _ _ _ hwf.2.1, load_new_fresh] at hok ⊢
      by_cases hr : (relocate_into_uninitialized T (List.replicate n none)
          (load h v.m_data) v.m_size).ok = true
      · simp only [hr, if_true]
        have hd := relocate_dest_of_ok T (List.replicate n none)
          (load h v.m_data) (elems h v) (by rw [hlen]; exact wf_take h v hwf)
          (by simp [hlen]; have := hwf.1; omega) (by rw [hlen]; exact hr)
        rw [hlen] at hd
        have hA := adopt_spec
          (operator_delete (destroy_range (store (store (operator_new h n).2
            (some (operator_new h n).1)
            (relocate_into_uninitialized T (List.replicate n none)
              (load h v.m_data) v.m_size).dest) v.m_data
            (relocate_into_uninitialized T (List.replicate n none)
              (load h v.m_data) v.m_size).src) v.m_data i v.m_size) v.m_data)
          (operator_new h n).1 n (elems h v)
          ((elems h v).map some ++ (List.replicate n none).drop v.m_size)
          (by rw [is_live_retire_ne _ _ _ _ _ hne, is_live_relocated, is_live_new_fresh])
          (by
            rw [load_retire_ne _ _ _ _ _ hne,
              load_relocated _ _ _ _ _ hne (is_live_new_fresh _ _), hd])
          (by simp [hlen]; have := hwf.1; omega)
          (by rw [hlen]; have := hwf.1; omega)
          (by simp [hlen, List.take_append_eq_append_take])
        rw [hlen] at hA
        exact ⟨hA.1, trivial, hA.2, trivial⟩
      · simp only [hr, Bool.false_eq_true, if_false] at hok
        simp at hok

/-- A `reserve` that throws leaves the object and the storage behind it as they were. -/
theorem reserve_strong_guarantee {α : Type} (T : ElemType α) (h : Heap α) (v : vector α)
    (n i : Nat) (hwf : WF h v) (hthrew : (reserve T h v n i).threw = true) :
    (reserve T h v n i).self = v ∧
      load (reserve T h v n i).heap v.m_data = load h v.m_data ∧
      is_live (reserve T h v n i).heap v.m_data = true := by
  by_cases hn : n ≤ v.m_capacity
  · simp [reserve, hn] at hthrew
  · simp only [reserve, hn, if_false] at hthrew ⊢
    by_cases hba : T.bad_alloc n = true
    · simp only [hba, if_true]
      exact ⟨by trivial, by trivial, hwf.2.1⟩
    · simp only [hba, Bool.false_eq_true, if_false] at hthrew ⊢
      have hne := fresh_ne_of_live h v.m_data n hwf.2.1
      split at hthrew
      · simp at hthrew
      · rename_i hr
        simp only [hr, Bool.false_eq_true, if_false]
        refine ⟨by trivial, ?_, ?_⟩
        · rw [load_delete_ne _ _ _ (Ne.symm hne), relocate_src_of_not_ok T _ _ _ hr,
            load_store_load, load_new_old _ _ _ hwf.2.1]
          rw [is_live_store, is_live_new_old _ _ _ hwf.2.1]
        · rw [is_live_delete_ne _ _ _ (Ne.symm hne), is_live_relocated,
            is_live_new_old _ _ _ hwf.2.1]

/-! ## resize -/

theorem length_construct_slots {α : Type} (T : ElemType α) (b : Block α) (i k n : Nat) :
    (construct_slots T b i k n).2.length = b.length := by
  induction n generalizing b i k with
  | zero => simp [construct_slots]
  | succ m ih =>
    simp only [construct_slots]
    split
    · rfl
    · rw [ih]; simp

theorem take_construct_slots {α : Type} (T : ElemType α) (b : Block α) (i k n m : Nat)
    (hm : m ≤ i) : (construct_slots T b i k n).2.take m = b.take m := by
  induction n generalizing b i k with
  | zero => simp [construct_slots]
  | succ j ih =>
    simp only [construct_slots]
    split
    · rfl
    · rw [ih _ _ _ (by omega), take_set_of_le _ _ _ _ hm]

theorem construct_slots_const {α : Type} (T : ElemType α) (d : α)
    (hd : ∀ k, T.default_ctor k = some d) (b : Block α) (i k n : Nat)
    (hb : i + n ≤ b.length) :
    construct_slots T b i k n
      = (true, b.take i ++ List.replicate n (some d) ++ b.drop (i + n)) := by
  induction n generalizing b i k with
  | zero => simp [construct_slots]
  | succ m ih =>
    simp only [construct_slots, hd]
    rw [ih _ _ _ (by simp; omega), take_set_succ _ _ _ (by omega),
      drop_set_of_lt _ _ _ _ (by omega)]
    simp [List.replicate_succ, Nat.add_assoc, Nat.add_comm 1]

theorem elems_of_take_eq {α : Type} (h g : Heap α) (v w : vector α)
    (ht : (load g w.m_data).take w.m_size = (load h v.m_data).take v.m_size) :
    elems g w = elems h v := by
  simp only [elems, ht]

/-- Shrinking `resize`: slots from `n` on are destroyed, the first `n` elements stay. -/
theorem resize_shrink_spec {α : Type} (h : Heap α) (v : vector α) (n : Nat)
    (hwf : WF h v) (hn : n < v.m_size) :
    WF (destroy_range h v.m_data n v.m_size) ⟨v.m_data, n, v.m_capacity⟩ ∧
      elems (destroy_range h v.m_data n v.m_size) ⟨v.m_data, n, v.m_capacity⟩
        = (elems h v).take n := by
  obtain ⟨a, ha⟩ := wf_data_ne_none h v hwf (by have := hwf.1; omega)
  have hlive : is_live h (some a) = true := by rw [← ha]; exact hwf.2.1
  have hlen : (load h (some a)).length = v.m_capacity := by rw [← ha]; exact hwf.2.2.1
  have htake := wf_take h v hwf
  rw [ha] at htake
  have hld : load (destroy_range h (some a) n v.m_size) (some a)
      = destroy_slots (load h (some a)) n (v.m_size - n) := by
    simp [destroy_range, load_store_same h a _ hlive]
  have htk : (load (destroy_range h (some a) n v.m_size) (some a)).take n
      = ((elems h v).take n).map some := by
    rw [hld, take_destroy_slots _ _ _ _ (Nat.le_refl n)]
    have : (load h (some a)).take n = ((load h (some a)).take v.m_size).take n := by
      rw [List.take_take, Nat.min_eq_left (by omega)]
    rw [this, htake, List.map_take]
  rw [ha]
  refine ⟨⟨by have := hwf.1; simp only []; omega, ?_, ?_, ?_⟩, ?_⟩
  · simp [is_live_destroy_range, hlive]
  · simp only [hld, length_destroy_slots, hlen]
  · simp only [htk, all_isSome_map_some]
  · simp only [elems, htk, reduceOption_map_some]

/-- The construction loop of a growing `resize`, run on a well-formed object with room for
`n` elements: the first `m_size` elements are never touched. -/
theorem resize_construct_spec {α : Type} (T : ElemType α) (g : Heap α) (w : vector α)
    (n : Nat) (hwf : WF g w) (hn : w.m_size < n) (hcap : n ≤ w.m_capacity) :
    elems (store g w.m_data
        (construct_slots T (load g w.m_data) w.m_size 0 (n - w.m_size)).2) w = elems g w ∧
      ((construct_slots T (load g w.m_data) w.m_size 0 (n - w.m_size)).1 = true →
        ∀ d, (∀ k, T.default_ctor k = some d) →
          WF (store g w.m_data
            (construct_slots T (load g w.m_data) w.m_size 0 (n - w.m_size)).2)
            ⟨w.m_data, n, w.m_capacity⟩ ∧
          elems (store g w.m_data
            (construct_slots T (load g w.m_data) w.m_size 0 (n - w.m_size)).2)
            ⟨w.m_data, n, w.m_capacity⟩ = elems g w ++ List.replicate (n - w.m_size) d) := by
  obtain ⟨a, ha⟩ := wf_data_ne_none g w hwf (by omega)
  have hlive : is_live g (some a) = true := by rw [← ha]; exact hwf.2.1
  have hlen : (load g (some a)).length = w.m_capacity := by rw [← ha]; exact hwf.2.2.1
  have htake := wf_take g w hwf
  have hxs := wf_length_elems g w hwf
  rw [ha] at htake
  rw [ha]
  refine ⟨?_, fun _ d hd => ?_⟩
  · apply elems_of_take_eq
    rw [ha]
    simp only [load_store_same g a _ hlive]
    exact take_construct_slots T _ _ _ _ _ (Nat.le_refl _)
  · have hc := construct_slots_const T d hd (load g (some a)) w.m_size 0 (n - w.m_size)
      (by omega)
    have hD : (load (store g (some a)
        (construct_slots T (load g (some a)) w.m_size 0 (n - w.m_size)).2) (some a)).take n
        = (elems g w ++ List.replicate (n - w.m_size) d).map some := by
      rw [load_store_same g a _ hlive, hc, htake]
      have e1 : n = ((elems g w).map some ++ List.replicate (n - w.m_size) (some d)).length := by
        simp [hxs]; omega
      simp only []
      rw [List.take_append_eq_append_take]
      rw [List.take_of_length_le (by simp [hxs]; omega)]
      simp [hxs]
      omega
    refine ⟨⟨hcap, ?_, ?_, ?_⟩, ?_⟩
    · simp [is_live_store, hlive]
    · simp only [load_store_same g a _ hlive, length_construct_slots, hlen]
    · simp only [hD, all_isSome_map_some]
    · simp only [elems, hD, reduceOption_map_some]

theorem resize_spec {α : Type} (T : ElemType α) (h : Heap α) (v : vector α) (n i : Nat)
    (d : α) (hwf : WF h v) (hd : ∀ k, T.default_ctor k = some d)
    (hok : (resize T h v n i).threw = false) :
    WF (resize T h v n i).heap (resize T h v n i).self ∧
      (resize T h v n i).self.m_size = n ∧
      elems (resize T h v n i).heap (resize T h v n i).self
        = (elems h v).take n ++ List.replicate (n - v.m_size) d := by
  have hxs := wf_length_elems h v hwf
  by_cases h1 : n = v.m_size
  · simp only [resize, h1, if_true]
    refine ⟨hwf, trivial, ?_⟩
    simp [List.take_of_length_le (Nat.le_of_eq hxs)]
  · by_cases h2 : n < v.m_size
    · have hs := resize_shrink_spec h v n hwf h2
      simp only [resize, h1, h2, if_true, if_false]
      refine ⟨hs.1, trivial, ?_⟩
      rw [hs.2, Nat.sub_eq_zero_of_le (Nat.le_of_lt h2)]
      simp
    · have hgt : v.m_size < n := by omega
      simp only [resize, h1, h2, if_false] at hok ⊢
      by_cases hr : (reserve T h v n i).threw = true
      · simp [hr] at hok
      · have hr2 : (reserve T h v n i).threw = false := by simpa using hr
        simp only [hr, Bool.false_eq_true, if_false] at hok ⊢
        have hs := reserve_spec T h v n i hwf hr2
        have hcap : n ≤ (reserve T h v n i).self.m_capacity := by
          rw [hs.2.2.2]; split <;> omega
        have hc := resize_construct_spec T (reserve T h v n i).heap (reserve T h v n i).self n
          hs.1 (by rw [hs.2.1]; exact hgt) hcap
        have hc1 := construct_slots_const T d hd
          (load (reserve T h v n i).heap (reserve T h v n i).self.m_data)
          (reserve T h v n i).self.m_size 0 (n - (reserve T h v n i).self.m_size)
          (by rw [hs.1.2.2.1]; omega)
        have htrue : (construct_slots T
            (load (reserve T h v n i).heap (reserve T h v n i).self.m_data)
            (reserve T h v n i).self.m_size 0 (n - (reserve T h v n i).self.m_size)).1
            = true := by rw [hc1]
        have hfin := hc.2 htrue d hd
        simp only [htrue, if_true]
        refine ⟨hfin.1, trivial, ?_⟩
        rw [hfin.2, hs.2.2.1, hs.2.1, List.take_of_length_le (by omega)]

theorem resize_no_throw_of_le {α : Type} (T : ElemType α) (h : Heap α) (v : vector α)
    (n i : Nat) (hn : n ≤ v.m_size) : (resize T h v n i).threw = false := by
  unfold resize
  split
  · rfl
  · split
    · rfl
    · omega

/-! ## When the operations return -/

theorem relocate_ok {α : Type} (T : ElemType α) (dest src : Block α) (xs : List α)
    (hsrc : src.take xs.length = xs.map some)
    (hT : T.nothrow_move = true ∨ ∀ y, y ∈ xs → T.copy_throws y = false) :
    (relocate_into_uninitialized T dest src xs.length).ok = true := by
  unfold relocate_into_uninitialized
  split
  · rfl
  · rename_i hm
    rcases hT with hmove | hcopy
    · exact absurd hmove hm
    · simp only [uninitialized_copy, hsrc]
      rw [copy_loop_of_no_throw T _ 0 dest (fun y hy => hcopy y (by simpa using hy))]

theorem relocate_ok_of_wf {α : Type} (T : ElemType α) (h : Heap α) (v : vector α)
    (dest : Block α) (hwf : WF h v)
    (hT : T.nothrow_move = true ∨ ∀ y, y ∈ elems h v → T.copy_throws y = false) :
    (relocate_into_uninitialized T dest (load h v.m_data) v.m_size).ok = true := by
  have hlen := wf_length_elems h v hwf
  have := relocate_ok T dest (load h v.m_data) (elems h v)
    (by rw [hlen]; exact wf_take h v hwf) hT
  rw [hlen] at this
  exact this

theorem push_back_returns {α : Type} (T : ElemType α) (h : Heap α) (v : vector α) (x : α)
    (hwf : WF h v) (halloc : T.bad_alloc (grown_capacity v.m_capacity) = false)
    (hT : T.nothrow_move = true ∨ ∀ y, y ∈ elems h v → T.copy_throws y = false) :
    (push_back T h v (some x)).threw = false := by
  unfold push_back
  split
  · rfl
  · simp only [halloc, Bool.false_eq_true, if_false]
    have hne := fresh_ne_of_live h v.m_data (grown_capacity v.m_capacity) hwf.2.1
    rw [construct_at, load_store_ne _ _ _ _ (Ne.symm hne), load_new_old _ _ _ hwf.2.1,
      relocate_ok_of_wf T h v _ hwf hT]
    rfl

theorem emplace_back_returns {α : Type} (T : ElemType α) (h : Heap α) (v : vector α) (x : α)
    (hwf : WF h v) (halloc : T.bad_alloc (grown_capacity v.m_capacity) = false)
    (hT : T.nothrow_move = true ∨ ∀ y, y ∈ elems h v → T.copy_throws y = false) :
    (emplace_back T h v (some x)).threw = false := by
  unfold emplace_back
  split
  · rfl
  · simp only [halloc, Bool.false_eq_true, if_false]
    rw [load_new_old _ _ _ hwf.2.1, relocate_ok_of_wf T h v _ hwf hT]
    rfl

theorem reserve_returns {α : Type} (T : ElemType α) (h : Heap α) (v : vector α) (n i : Nat)
    (hwf : WF h v) (halloc : T.bad_alloc n = false)
    (hT : T.nothrow_move = true ∨ ∀ y, y ∈ elems h v → T.copy_throws y = false) :
    (reserve T h v n i).threw = false := by
  unfold reserve
  split
  · rfl
  · simp only [halloc, Bool.false_eq_true, if_false]
    rw [load_new_old _ _ _ hwf.2.1, relocate_ok_of_wf T h v _ hwf hT]
    rfl

theorem resize_returns {α : Type} (T : ElemType α) (h : Heap α) (v : vector α) (n i : Nat)
    (d : α) (hwf : WF h v) (hd : ∀ k, T.default_ctor k = some d)
    (halloc : T.bad_alloc n = false)
    (hT : T.nothrow_move = true ∨ ∀ y, y ∈ elems h v → T.copy_throws y = false) :
    (resize T h v n i).threw = false := by
  by_cases hle : n ≤ v.m_size
  · exact resize_no_throw_of_le T h v n i hle
  · have h1 : ¬ n = v.m_size := by omega
    have h2 : ¬ n < v.m_size := by omega
    have hr := reserve_returns T h v n i hwf halloc hT
    have hs := reserve_spec T h v n i hwf hr
    have hc1 := construct_slots_const T d hd
      (load (reserve T h v n i).heap (reserve T h v n i).self.m_data)
      (reserve T h v n i).self.m_size 0 (n - (reserve T h v n i).self.m_size)
      (by rw [hs.1.2.2.1, hs.2.2.2, hs.2.1]; split <;> omega)
    simp only [resize, h1, h2, if_false, hr, Bool.false_eq_true, hc1, if_true]

/-! ## Copy construction, assignment and move -/

theorem wf_null {α : Type} (h : Heap α) :
    WF h (⟨none, 0, 0⟩ : vector α) ∧ elems h (⟨none, 0, 0⟩ : vector α) = [] := by
  refine ⟨⟨Nat.le_refl _, rfl, rfl, rfl⟩, rfl⟩

theorem elems_of_size_zero {α : Type} (h : Heap α) (v : vector α) (hz : v.m_size = 0) :
    elems h v = [] := by
  simp [elems, hz]

/-- The copy constructor writes only to the block it allocates. -/
theorem vector_copy_frame {α : Type} (T : ElemType α) (h : Heap α) (other : vector α)
    (q : Option Nat) (hq : is_live h q = true) :
    load (vector_copy T h other).1 q = load h q ∧
      is_live (vector_copy T h other).1 q = true := by
  unfold vector_copy
  split
  · exact ⟨rfl, hq⟩
  · simp only []
    split
    · exact ⟨rfl, hq⟩
    · have hne := fresh_ne_of_live h q other.m_capacity hq
      split
      · simp only []
        rw [load_store_ne _ _ _ _ (Ne.symm hne), load_new_old _ _ _ hq, is_live_store,
          is_live_new_old _ _ _ hq]
        exact ⟨rfl, rfl⟩
      · simp only []
        rw [load_delete_ne _ _ _ (Ne.symm hne), load_store_ne _ _ _ _ (Ne.symm hne),
          load_new_old _ _ _ hq, is_live_delete_ne _ _ _ (Ne.symm hne), is_live_store,
          is_live_new_old _ _ _ hq]
        exact ⟨rfl, rfl⟩

theorem vector_copy_spec {α : Type} (T : ElemType α) (h : Heap α) (other w : vector α)
    (hwf : WF h other) (hw : (vector_copy T h other).2 = some w) :
    WF (vector_copy T h other).1 w ∧ w.m_size = other.m_size ∧
      elems (vector_copy T h other).1 w = elems h other ∧
      w.m_capacity = (if other.m_size = 0 then 0 else other.m_capacity) ∧
      (w.m_data = none ∨ w.m_data = some h.length) := by
  by_cases hz : other.m_size = 0
  · simp only [vector_copy, hz, if_true, Option.some.injEq] at hw ⊢
    subst hw
    exact ⟨(wf_null h).1, rfl, by rw [(wf_null h).2, elems_of_size_zero h other hz], rfl,
      Or.inl rfl⟩
  · simp only [vector_copy, hz, if_false] at hw ⊢
    by_cases hba : T.bad_alloc other.m_capacity = true
    · simp [hba] at hw
    · simp only [hba, Bool.false_eq_true, if_false] at hw ⊢
      have hlen := wf_length_elems h other hwf
      have htake := wf_take h other hwf
      rw [load_new_old _ _ _ hwf.2.1, load_new_fresh] at hw ⊢
      by_cases hr : (uninitialized_copy T (load h other.m_data) other.m_size
          (List.replicate other.m_capacity none)).1 = true
      · simp only [hr, if_true, Option.some.injEq] at hw ⊢
        subst hw
        have hd : (uninitialized_copy T (load h other.m_data) other.m_size
            (List.replicate other.m_capacity none)).2
            = (elems h other).map some ++ (List.replicate other.m_capacity none).drop
              other.m_size := by
          unfold uninitialized_copy at hr ⊢
          rw [htake] at hr ⊢
          rw [copy_loop_of_no_throw T _ 0 _ (copy_loop_fst_eq_true T _ 0 _ hr)]
          simp only []
          rw [move_loop_map_some _ 0 _ (by simp [hlen]; exact hwf.1)]
          simp [hlen]
        have hA := adopt_spec
          (store (operator_new h other.m_capacity).2 (some (operator_new h other.m_capacity).1)
            (uninitialized_copy T (load h other.m_data) other.m_size
              (List.replicate other.m_capacity none)).2)
          (operator_new h other.m_capacity).1 other.m_capacity (elems h other)
          ((elems h other).map some ++ (List.replicate other.m_capacity none).drop
              other.m_size)
          (by rw [is_live_store, is_live_new_fresh])
          (by rw [load_store_same _ _ _ (is_live_new_fresh _ _), hd])
          (by simp [hlen]; have := hwf.1; omega)
          (by rw [hlen]; exact hwf.1)
          (by simp [hlen, List.take_append_eq_append_take])
        rw [hlen] at hA
        exact ⟨hA.1, rfl, hA.2, rfl, Or.inr rfl⟩
      · simp [hr] at hw

/-- Writing `v[idx] = x` with `idx < m_size` is seen by a later read of `v[idx]`. -/
theorem index_assign_index {α : Type} (h : Heap α) (v : vector α) (idx : Nat) (x : α)
    (hwf : WF h v) (hidx : idx < v.m_size) :
    index (assign_index h v idx x) v idx = some x := by
  obtain ⟨a, ha⟩ := wf_data_ne_none h v hwf (by have := hwf.1; omega)
  have hlive : is_live h (some a) = true := by rw [← ha]; exact hwf.2.1
  have hlen : (load h (some a)).length = v.m_capacity := by rw [← ha]; exact hwf.2.2.1
  have hlt : idx < (load h (some a)).length := by have := hwf.1; omega
  simp only [index, assign_index, ha, load_store_same h a _ hlive]
  rw [List.getElem?_set_self hlt]
  rfl

/-- Writing through an object that shares no storage with `u` leaves the block of `u`. -/
theorem load_assign_index_ne {α : Type} (h : Heap α) (v : vector α) (q : Option Nat)
    (idx : Nat) (x : α) (hsep : v.m_data = none ∨ v.m_data ≠ q) :
    load (assign_index h v idx x) q = load h q := by
  unfold assign_index
  rcases hsep with hnone | hne
  · rw [hnone]; rfl
  · exact load_store_ne _ _ _ _ hne

theorem fresh_separate {α : Type} (h : Heap α) (p q : Option Nat)
    (hp : p = none ∨ p = some h.length) (hq : is_live h q = true) : p = none ∨ p ≠ q := by
  rcases hp with hnone | hfresh
  · exact Or.inl hnone
  · right
    rw [hfresh]
    exact Ne.symm (fresh_ne_of_live h q 0 hq)

theorem copy_assign_of_none {α : Type} (T : ElemType α) (h : Heap α) (a b : vector α)
    (hc : (vector_copy T h b).2 = none) :
    copy_assign T h a b = ⟨true, (vector_copy T h b).1, a⟩ := by
  unfold copy_assign
  rcases hv : vector_copy T h b with ⟨h1, o⟩
  rw [hv] at hc
  simp only [] at hc
  subst hc
  rfl

theorem copy_assign_of_some {α : Type} (T : ElemType α) (h : Heap α) (a b temp : vector α)
    (hc : (vector_copy T h b).2 = some temp) :
    copy_assign T h a b = ⟨false, destructor (vector_copy T h b).1 a, temp⟩ := by
  unfold copy_assign
  rcases hv : vector_copy T h b with ⟨h1, o⟩
  rw [hv] at hc
  simp only [] at hc
  subst hc
  rfl

theorem load_destructor_ne {α : Type} (g : Heap α) (a : vector α) (q : Option Nat)
    (hsep : a.m_data = none ∨ a.m_data ≠ q) :
    load (destructor g a) q = load g q ∧ is_live (destructor g a) q = is_live g q := by
  unfold destructor
  rcases hsep with hnone | hne
  · simp [hnone]
  · split
    · exact ⟨load_retire_ne _ _ _ _ _ hne, is_live_retire_ne _ _ _ _ _ hne⟩
    · exact ⟨rfl, rfl⟩

theorem wf_of_load_eq {α : Type} (h g : Heap α) (v : vector α) (hwf : WF h v)
    (hl : load g v.m_data = load h v.m_data) (hlive : is_live g v.m_data = true) :
    WF g v ∧ elems g v = elems h v := by
  refine ⟨⟨hwf.1, hlive, ?_, ?_⟩, ?_⟩
  · rw [hl]; exact hwf.2.2.1
  · rw [hl]; exact hwf.2.2.2
  · simp only [elems, hl]

/-- Copy-assignment that returns: `*this` becomes the copy; blocks that are neither the old
block of `*this` nor fresh are as before. -/
theorem copy_assign_spec {α : Type} (T : ElemType α) (h : Heap α) (a b : vector α)
    (hwa : WF h a) (hwb : WF h b) (hok : (copy_assign T h a b).threw = false) :
    WF (copy_assign T h a b).heap (copy_assign T h a b).self ∧
      (copy_assign T h a b).self.m_size = b.m_size ∧
      elems (copy_assign T h a b).heap (copy_assign T h a b).self = elems h b ∧
      (copy_assign T h a b).self.m_capacity = (if b.m_size = 0 then 0 else b.m_capacity) ∧
      (∀ q, is_live h q = true → (a.m_data = none ∨ a.m_data ≠ q) →
        load (copy_assign T h a b).heap q = load h q ∧
        is_live (copy_assign T h a b).heap q = true) := by
  cases hc : (vector_copy T h b).2 with
  | none =>
    rw [copy_assign_of_none T h a b hc] at hok
    simp at hok
  | some temp =>
    rw [copy_assign_of_some T h a b temp hc]
    have hs := vector_copy_spec T h b temp hwb hc
    have hsep : a.m_data = none ∨ a.m_data ≠ temp.m_data := by
      rcases hs.2.2.2.2 with hnone | hfresh
      · by_cases ha : a.m_data = none
        · exact Or.inl ha
        · right; rw [hnone]; exact ha
      · right; rw [hfresh]; exact fresh_ne_of_live h a.m_data 0 hwa.2.1
    have hd := load_destructor_ne (vector_copy T h b).1 a temp.m_data hsep
    have hw := wf_of_load_eq (vector_copy T h b).1 (destructor (vector_copy T h b).1 a) temp
      hs.1 hd.1 (by rw [hd.2]; exact hs.1.2.1)
    refine ⟨hw.1, hs.2.1, by rw [hw.2, hs.2.2.1], hs.2.2.2.1, fun q hq hsq => ?_⟩
    have hf := vector_copy_frame T h b q hq
    have hdq := load_destructor_ne (vector_copy T h b).1 a q hsq
    exact ⟨by rw [hdq.1, hf.1], by rw [hdq.2, hf.2]⟩

/-- Copy-assignment that throws leaves `*this` and its storage as they were. -/
theorem copy_assign_strong_guarantee {α : Type} (T : ElemType α) (h : Heap α)
    (a b : vector α) (hwa : WF h a) (hthrew : (copy_assign T h a b).threw = true) :
    (copy_assign T h a b).self = a ∧
      load (copy_assign T h a b).heap a.m_data = load h a.m_data ∧
      is_live (copy_assign T h a b).heap a.m_data = true := by
  cases hc : (vector_copy T h b).2 with
  | none =>
    rw [copy_assign_of_none T h a b hc]
    have hf := vector_copy_frame T h b a.m_data hwa.2.1
    exact ⟨rfl, hf.1, hf.2⟩
  | some temp =>
    rw [copy_assign_of_some T h a b temp hc] at hthrew
    simp at hthrew

theorem vector_copy_returns {α : Type} (T : ElemType α) (h : Heap α) (other : vector α)
    (hwf : WF h other) (halloc : T.bad_alloc other.m_capacity = false)
    (hT : ∀ y, y ∈ elems h other → T.copy_throws y = false) :
    ((vector_copy T h other).2).isSome = true := by
  unfold vector_copy
  split
  · rfl
  · simp only [halloc, Bool.false_eq_true, if_false]
    rw [load_new_old _ _ _ hwf.2.1]
    have hc : (uninitialized_copy T (load h other.m_data) other.m_size
        (load (operator_new h other.m_capacity).2
          (some (operator_new h other.m_capacity).1))).1 = true := by
      unfold uninitialized_copy
      rw [wf_take h other hwf,
        copy_loop_of_no_throw T _ 0 _ (fun y hy => hT y (by simpa using hy))]
    simp only [hc, if_true]
    rfl

theorem copy_assign_returns {α : Type} (T : ElemType α) (h : Heap α) (a b : vector α)
    (hwb : WF h b) (halloc : T.bad_alloc b.m_capacity = false)
    (hT : ∀ y, y ∈ elems h b → T.copy_throws y = false) :
    (copy_assign T h a b).threw = false := by
  have hsome := vector_copy_returns T h b hwb halloc hT
  cases hc : (vector_copy T h b).2 with
  | none => rw [hc] at hsome; simp at hsome
  | some temp => rw [copy_assign_of_some T h a b temp hc]

/-! ## shrink_to_fit -/

theorem shrink_to_fit_spec {α : Type} (T : ElemType α) (h : Heap α) (v : vector α)
    (hwf : WF h v) (hok : (shrink_to_fit T h v).threw = false) :
    WF (shrink_to_fit T h v).heap (shrink_to_fit T h v).self ∧
      (shrink_to_fit T h v).self.m_size = v.m_size ∧
      elems (shrink_to_fit T h v).heap (shrink_to_fit T h v).self = elems h v ∧
      (shrink_to_fit T h v).self.m_capacity = v.m_size := by
  by_cases h1 : v.m_size = v.m_capacity
  · simp only [shrink_to_fit, h1, if_true]
    exact ⟨hwf, trivial, trivial, trivial⟩
  · by_cases h2 : v.m_size = 0
    · have h1z : ¬ (0 = v.m_capacity) := by rw [← h2]; exact h1
      simp only [shrink_to_fit, h2, h1z, if_true, if_false]
      refine ⟨(wf_null _).1, trivial, ?_, trivial⟩
      rw [(wf_null _).2, elems_of_size_zero h v h2]
    · simp only [shrink_to_fit, h1, h2, if_false] at hok ⊢
      by_cases hba : T.bad_alloc v.m_size = true
      · simp [hba] at hok
      · simp only [hba, Bool.false_eq_true, if_false] at hok ⊢
        have hne := fresh_ne_of_live h v.m_data v.m_size hwf.2.1
        have hlen := wf_length_elems h v hwf
        rw [load_new_old _ _ _ hwf.2.1, load_new_fresh] at hok ⊢
        by_cases hr : (relocate_into_uninitialized T (List.replicate v.m_size none)
            (load h v.m_data) v.m_size).ok = true
        · simp only [hr, if_true]
          have hd := relocate_dest_of_ok T (List.replicate v.m_size none)
            (load h v.m_data) (elems h v) (by rw [hlen]; exact wf_take h v hwf)
            (by simp [hlen]) (by rw [hlen]; exact hr)
          rw [hlen] at hd
          have hA := adopt_spec
            (operator_delete (destroy_range (store (store (operator_new h v.m_size).2
              (some (operator_new h v.m_size).1)
              (relocate_into_uninitialized T (List.replicate v.m_size none)
                (load h v.m_data) v.m_size).dest) v.m_data
              (relocate_into_uninitialized T (List.replicate v.m_size none)
                (load h v.m_data) v.m_size).src) v.m_data 0 v.m_size) v.m_data)
            (operator_new h v.m_size).1 v.m_size (elems h v)
            ((elems h v).map some ++ (List.replicate v.m_size none).drop v.m_size)
            (by rw [is_live_retire_ne _ _ _ _ _ hne, is_live_relocated, is_live_new_fresh])
            (by
              rw [load_retire_ne _ _ _ _ _ hne,
                load_relocated _ _ _ _ _ hne (is_live_new_fresh _ _), hd])
            (by simp [hlen])
            (by rw [hlen])
            (by simp [hlen, List.take_append_eq_append_take])
          rw [hlen] at hA
          exact ⟨hA.1, trivial, hA.2, trivial⟩
        · simp only [hr, Bool.false_eq_true, if_false] at hok
          simp at hok

theorem shrink_to_fit_returns {α : Type} (T : ElemType α) (h : Heap α) (v : vector α)
    (hwf : WF h v) (halloc : T.bad_alloc v.m_size = false)
    (hT : T.nothrow_move = true ∨ ∀ y, y ∈ elems h v → T.copy_throws y = false) :
    (shrink_to_fit T h v).threw = false := by
  unfold shrink_to_fit
  split
  · rfl
  · split
    · rfl
    · simp only [halloc, Bool.false_eq_true, if_false]
      rw [load_new_old _ _ _ hwf.2.1, relocate_ok_of_wf T h v _ hwf hT]
      rfl

/-! ## Capacity never shrinks outside shrink_to_fit -/

theorem capacity_le_push_back {α : Type} (T : ElemType α) (h : Heap α) (v : vector α)
    (value : Option α) : v.m_capacity ≤ (push_back T h v value).self.m_capacity := by
  have hf := push_back_fields T h v value
  have hg := grown_capacity_gt v.m_capacity
  cases hthrew : (push_back T h v value).threw with
  | false =>
    rw [(hf.1 hthrew).2]
    split <;> omega
  | true => rw [hf.2 hthrew]

theorem capacity_le_emplace_back {α : Type} (T : ElemType α) (h : Heap α) (v : vector α)
    (args : Option α) : v.m_capacity ≤ (emplace_back T h v args).self.m_capacity := by
  have hf := emplace_back_fields T h v args
  have hg := grown_capacity_gt v.m_capacity
  cases hthrew : (emplace_back T h v args).threw with
  | false =>
    rw [(hf.1 hthrew).2]
    split <;> omega
  | true => rw [hf.2 hthrew]

theorem capacity_le_reserve {α : Type} (T : ElemType α) (h : Heap α) (v : vector α)
    (n i : Nat) : v.m_capacity ≤ (reserve T h v n i).self.m_capacity := by
  unfold reserve
  split
  · exact Nat.le_refl _
  · split
    · exact Nat.le_refl _
    · simp only []
      split
      · simp only []; omega
      · exact Nat.le_refl _

theorem capacity_le_resize {α : Type} (T : ElemType α) (h : Heap α) (v : vector α)
    (n i : Nat) : v.m_capacity ≤ (resize T h v n i).self.m_capacity := by
  have hr := capacity_le_reserve T h v n i
  unfold resize
  split
  · exact Nat.le_refl _
  · split
    · exact Nat.le_refl _
    · simp only []
      split
      · exact hr
      · split
        · exact hr
        · exact hr

/-! ## Element access -/

/-- On a well-formed object, reading `v[k]` with `k < m_size` gives the `k`-th live element. -/
theorem wf_index {α : Type} (h : Heap α) (v : vector α) (k : Nat) (hwf : WF h v)
    (hk : k < v.m_size) : index h v k = (elems h v)[k]? := by
  have htake := wf_take h v hwf
  have h1 : (load h v.m_data)[k]? = ((load h v.m_data).take v.m_size)[k]? := by
    rw [List.getElem?_take_of_lt hk]
  unfold index
  rw [h1, htake, List.getElem?_map]
  cases (elems h v)[k]? <;> rfl

theorem wf_index_some {α : Type} (h : Heap α) (v : vector α) (k : Nat) (hwf : WF h v)
    (hk : k < v.m_size) : ∃ x, index h v k = some x ∧ (elems h v)[k]? = some x := by
  have hlen := wf_length_elems h v hwf
  have hlt : k < (elems h v).length := by omega
  exact ⟨(elems h v)[k], by rw [wf_index h v k hwf hk, List.getElem?_eq_getElem hlt],
    List.getElem?_eq_getElem hlt⟩

/-! ## operator== -/

theorem eq_loop_iff {α : Type} (T : ElemType α) (a b : Block α) (i n : Nat) :
    eq_loop T a b i n = true ↔
      ∀ k, k < n → ∀ x y, (a[i + k]?).join = some x → (b[i + k]?).join = some y →
        T.eq x y = true := by
  induction n generalizing i with
  | zero => simp [eq_loop]
  | succ m ih =>
    have hstep : (∀ k, k < m + 1 → ∀ x y, (a[i + k]?).join = some x →
        (b[i + k]?).join = some y → T.eq x y = true) ↔
        ((∀ x y, (a[i]?).join = some x → (b[i]?).join = some y → T.eq x y = true) ∧
          ∀ k, k < m → ∀ x y, (a[i + 1 + k]?).join = some x →
            (b[i + 1 + k]?).join = some y → T.eq x y = true) := by
      constructor
      · intro hall
        refine ⟨fun x y hx hy => hall 0 (by omega) x y hx hy, fun k hk x y hx hy => ?_⟩
        have e : i + 1 + k = i + (k + 1) := by omega
        rw [e] at hx hy
        exact hall (k + 1) (by omega) x y hx hy
      · rintro ⟨h0, hrest⟩ k hk x y hx hy
        cases k with
        | zero => exact h0 x y hx hy
        | succ j =>
          have e : i + (j + 1) = i + 1 + j := by omega
          rw [e] at hx hy
          exact hrest j (by omega) x y hx hy
    rw [hstep, ← ih (i + 1)]
    cases ha : (a[i]?).join with
    | none =>
      simp only [eq_loop, ha]
      simp
    | some x =>
      cases hb : (b[i]?).join with
      | none =>
        simp only [eq_loop, ha, hb]
        simp
      | some y =>
        simp only [eq_loop, ha, hb]
        by_cases hxy : T.eq x y = true
        · simp [hxy]
        · simp [hxy]

theorem operator_eq_iff {α : Type} (T : ElemType α) (h : Heap α) (a b : vector α) :
    operator_eq T h a b = true ↔
      a.m_size = b.m_size ∧ ∀ k, k < a.m_size → ∀ x y, index h a k = some x →
        index h b k = some y → T.eq x y = true := by
  unfold operator_eq
  by_cases hs : a.m_size = b.m_size
  · simp only [hs, ne_eq, not_true_eq_false, if_false, true_and]
    rw [eq_loop_iff]
    simp only [Nat.zero_add, index]
  · simp [hs]

theorem operator_eq_iff_elems {α : Type} (T : ElemType α) (h : Heap α) (a b : vector α)
    (hwa : WF h a) (hwb : WF h b) :
    operator_eq T h a b = true ↔
      (elems h a).length = (elems h b).length ∧
        ∀ (k : Nat) (x y : α), (elems h a)[k]? = some x → (elems h b)[k]? = some y →
          T.eq x y = true := by
  have hla := wf_length_elems h a hwa
  have hlb := wf_length_elems h b hwb
  rw [operator_eq_iff, hla, hlb]
  constructor
  · rintro ⟨hs, hall⟩
    refine ⟨hs, fun k x y hx hy => ?_⟩
    have hk : k < a.m_size := by
      rw [← hla]
      by_contra hnot
      rw [List.getElem?_eq_none (by omega)] at hx
      simp at hx
    exact hall k hk x y (by rw [wf_index h a k hwa hk]; exact hx)
      (by rw [wf_index h b k hwb (by omega)]; exact hy)
  · rintro ⟨hs, hall⟩
    refine ⟨hs, fun k hk x y hx hy => ?_⟩
    rw [wf_index h a k hwa hk] at hx
    rw [wf_index h b k hwb (by omega)] at hy
    exact hall k x y hx hy

/-! ## Fill and initializer-list construction -/

/-- A copy loop over live sources that returns has filled the first slots of a fresh block. -/
theorem copy_loop_fresh {α : Type} (T : ElemType α) (ys : List α) (n : Nat)
    (hn : ys.length ≤ n)
    (hok : (copy_loop T (ys.map some) 0 (List.replicate n none)).1 = true) :
    (copy_loop T (ys.map some) 0 (List.replicate n none)).2
      = ys.map some ++ (List.replicate n none).drop ys.length := by
  rw [copy_loop_of_no_throw T _ 0 _ (copy_loop_fst_eq_true T _ 0 _ hok)]
  simp only []
  rw [move_loop_map_some _ 0 _ (by simp; omega)]
  simp

theorem copy_loop_returns {α : Type} (T : ElemType α) (ys : List α) (d : Block α)
    (hT : ∀ y, y ∈ ys → T.copy_throws y = false) :
    (copy_loop T (ys.map some) 0 d).1 = true := by
  rw [copy_loop_of_no_throw T _ 0 d (fun y hy => hT y (by simpa using hy))]

/-- The block a constructor has filled with `ys`, adopted with capacity `ys.length`. -/
theorem adopt_fresh {α : Type} (h : Heap α) (ys : List α) (D : Block α)
    (hD : D = ys.map some ++ (List.replicate ys.length none).drop ys.length) :
    WF (store (operator_new h ys.length).2 (some (operator_new h ys.length).1) D)
        ⟨some (operator_new h ys.length).1, ys.length, ys.length⟩ ∧
      elems (store (operator_new h ys.length).2 (some (operator_new h ys.length).1) D)
        ⟨some (operator_new h ys.length).1, ys.length, ys.length⟩ = ys :=
  adopt_spec _ _ ys.length ys D (by rw [is_live_store, is_live_new_fresh])
    (load_store_same _ _ _ (is_live_new_fresh _ _)) (by rw [hD]; simp) (Nat.le_refl _)
    (by rw [hD]; simp)

theorem vector_init_list_spec {α : Type} (T : ElemType α) (h : Heap α) (list : List α)
    (w : vector α) (hw : (vector_init_list T h list).2 = some w) :
    WF (vector_init_list T h list).1 w ∧ w.m_size = list.length ∧
      w.m_capacity = list.length ∧ elems (vector_init_list T h list).1 w = list := by
  by_cases hz : list.length = 0
  · have hnil : list = [] := List.length_eq_zero.mp hz
    subst hnil
    simp only [vector_init_list, List.length_nil, if_true, Option.some.injEq] at hw ⊢
    subst hw
    exact ⟨(wf_null h).1, rfl, rfl, (wf_null h).2⟩
  · simp only [vector_init_list, hz, if_false] at hw ⊢
    by_cases hba : T.bad_alloc list.length = true
    · simp [hba] at hw
    · simp only [hba, Bool.false_eq_true, if_false] at hw ⊢
      rw [load_new_fresh] at hw ⊢
      have hsrc : (list.map some).take list.length = list.map some :=
        List.take_of_length_le (by simp)
      simp only [uninitialized_copy, hsrc] at hw ⊢
      by_cases hr : (copy_loop T (list.map some) 0 (List.replicate list.length none)).1 = true
      · simp only [hr, if_true, Option.some.injEq] at hw ⊢
        subst hw
        have hA := adopt_fresh h list _ (copy_loop_fresh T list list.length (Nat.le_refl _) hr)
        exact ⟨hA.1, rfl, rfl, hA.2⟩
      · simp [hr] at hw

theorem vector_fill_spec {α : Type} (T : ElemType α) (h : Heap α) (n : Nat) (value : α)
    (w : vector α) (hw : (vector_fill T h n value).2 = some w) :
    WF (vector_fill T h n value).1 w ∧ w.m_size = n ∧ w.m_capacity = n ∧
      elems (vector_fill T h n value).1 w = List.replicate n value := by
  by_cases hz : n = 0
  · subst hz
    simp only [vector_fill, if_true, Option.some.injEq] at hw ⊢
    subst hw
    exact ⟨(wf_null h).1, rfl, rfl, (wf_null h).2⟩
  · simp only [vector_fill, hz, if_false] at hw ⊢
    by_cases hba : T.bad_alloc n = true
    · simp [hba] at hw
    · simp only [hba, Bool.false_eq_true, if_false] at hw ⊢
      rw [load_new_fresh] at hw ⊢
      have hsrc : List.replicate n (some value) = (List.replicate n value).map some := by
        simp
      have hlen : (List.replicate n value).length = n := List.length_replicate _ _
      simp only [uninitialized_fill_n] at hw ⊢
      rw [hsrc] at hw ⊢
      by_cases hr : (copy_loop T ((List.replicate n value).map some) 0
          (List.replicate n none)).1 = true
      · simp only [hr, if_true, Option.some.injEq] at hw ⊢
        subst hw
        have hA := adopt_fresh h (List.replicate n value)
          (copy_loop T ((List.replicate n value).map some) 0 (List.replicate n none)).2
          (by
            rw [hlen]
            have := copy_loop_fresh T (List.replicate n value) n (by rw [hlen]) hr
            rw [hlen] at this
            exact this)
        rw [hlen] at hA
        exact ⟨hA.1, rfl, rfl, hA.2⟩
      · simp only [hr, if_false] at hw
        simp at hw

theorem vector_fill_returns {α : Type} (T : ElemType α) (h : Heap α) (n : Nat) (value : α)
    (halloc : T.bad_alloc n = false) (hT : T.copy_throws value = false) :
    ((vector_fill T h n value).2).isSome = true := by
  unfold vector_fill
  split
  · rfl
  · simp only [halloc, Bool.false_eq_true, if_false, uninitialized_fill_n]
    have hsrc : List.replicate n (some value) = (List.replicate n value).map some := by
      simp
    rw [hsrc, copy_loop_returns T _ _ (fun y hy => by rw [List.eq_of_mem_replicate hy]; exact hT)]
    rfl

theorem vector_init_list_returns {α : Type} (T : ElemType α) (h : Heap α) (list : List α)
    (halloc : T.bad_alloc list.length = false)
    (hT : ∀ y, y ∈ list → T.copy_throws y = false) :
    ((vector_init_list T h list).2).isSome = true := by
  unfold vector_init_list
  simp only []
  split
  · rfl
  · have hsrc : (list.map some).take list.length = list.map some :=
      List.take_of_length_le (by simp)
    simp only [halloc, Bool.false_eq_true, if_false, uninitialized_copy, hsrc]
    rw [copy_loop_returns T _ _ hT]
    rfl

/-! ## pop_back and clear -/

theorem pop_back_eq_destroy_range {α : Type} (h : Heap α) (v : vector α)
    (hne : 0 < v.m_size) :
    pop_back h v
      = ⟨false, destroy_range h v.m_data (v.m_size - 1) v.m_size,
          ⟨v.m_data, v.m_size - 1, v.m_capacity⟩⟩ := by
  have hz : ¬ v.m_size = 0 := by omega
  have h1 : v.m_size - (v.m_size - 1) = 1 := by omega
  simp only [pop_back, hz, if_false, destroy_at, destroy_range, h1, destroy_slots]

theorem store_load_same {α : Type} (h : Heap α) (p : Option Nat) : store h p (load h p) = h := by
  cases p with
  | none => rfl
  | some a =>
    simp only [store, load]
    split
    · rename_i b hb
      have hlt : a < h.length := by
        by_contra hlt
        have : h[a]? = none := List.getElem?_eq_none (by omega)
        simp [this] at hb
      apply List.ext_getElem?
      intro i
      by_cases hi : a = i
      · subst hi
        simp [List.getElem?_set_self hlt, hb]
      · simp [List.getElem?_set_ne hi]
    · rfl

theorem clear_spec {α : Type} (h : Heap α) (v : vector α) (hwf : WF h v) :
    WF (clear h v).heap (clear h v).self ∧ elems (clear h v).heap (clear h v).self = [] := by
  refine ⟨⟨Nat.zero_le _, ?_, ?_, ?_⟩, elems_of_size_zero _ _ rfl⟩
  · simp only [clear, is_live_destroy_range]
    exact hwf.2.1
  · simp only [clear]
    cases hp : v.m_data with
    | none =>
      have := hwf.2.2.1
      rw [hp] at this
      simpa [load] using this
    | some a =>
      have hlive : is_live h (some a) = true := by rw [← hp]; exact hwf.2.1
      have hlen : (load h (some a)).length = v.m_capacity := by rw [← hp]; exact hwf.2.2.1
      simp only [destroy_range, load_store_same h a _ hlive, length_destroy_slots, hlen]
  · simp [clear]

/-! ## Repeating clear and shrink_to_fit -/

theorem clear_clear {α : Type} (h : Heap α) (v : vector α) :
    clear (clear h v).heap (clear h v).self = clear h v := by
  have e : destroy_range (destroy_range h v.m_data 0 v.m_size) v.m_data 0 0
      = destroy_range h v.m_data 0 v.m_size := by
    generalize destroy_range h v.m_data 0 v.m_size = g
    simp only [destroy_range, Nat.sub_self, destroy_slots, store_load_same]
  simp only [clear, e]

/-- A `shrink_to_fit` that throws leaves the object and the storage behind it as they were. -/
theorem shrink_to_fit_strong_guarantee {α : Type} (T : ElemType α) (h : Heap α)
    (v : vector α) (hwf : WF h v) (hthrew : (shrink_to_fit T h v).threw = true) :
    (shrink_to_fit T h v).self = v ∧
      load (shrink_to_fit T h v).heap v.m_data = load h v.m_data ∧
      is_live (shrink_to_fit T h v).heap v.m_data = true := by
  by_cases h1 : v.m_size = v.m_capacity
  · simp [shrink_to_fit, h1] at hthrew
  · by_cases h2 : v.m_size = 0
    · have h1z : ¬ (0 = v.m_capacity) := by rw [← h2]; exact h1
      simp [shrink_to_fit, h2, h1z] at hthrew
    · simp only [shrink_to_fit, h1, h2, if_false] at hthrew ⊢
      by_cases hba : T.bad_alloc v.m_size = true
      · simp only [hba, if_true]
        exact ⟨by trivial, by trivial, hwf.2.1⟩
      · simp only [hba, Bool.false_eq_true, if_false] at hthrew ⊢
        have hne := fresh_ne_of_live h v.m_data v.m_size hwf.2.1
        split at hthrew
        · simp at hthrew
        · rename_i hr
          simp only [hr, Bool.false_eq_true, if_false]
          refine ⟨by trivial, ?_, ?_⟩
          · rw [load_delete_ne _ _ _ (Ne.symm hne), relocate_src_of_not_ok T _ _ _ hr,
              load_store_load, load_new_old _ _ _ hwf.2.1]
            rw [is_live_store, is_live_new_old _ _ _ hwf.2.1]
          · rw [is_live_delete_ne _ _ _ (Ne.symm hne), is_live_relocated,
              is_live_new_old _ _ _ hwf.2.1]

/-- Whether `shrink_to_fit` throws depends only on the object and the block behind it. -/
theorem shrink_to_fit_threw_congr {α : Type} (T : ElemType α) (h g : Heap α) (v : vector α)
    (hh : is_live h v.m_data = true) (hg : is_live g v.m_data = true)
    (hl : load g v.m_data = load h v.m_data) :
    (shrink_to_fit T g v).threw = (shrink_to_fit T h v).threw := by
  unfold shrink_to_fit
  split
  · rfl
  · split
    · rfl
    · split
      · rfl
      · simp only []
        rw [load_new_old _ _ _ hg, load_new_old _ _ _ hh, load_new_fresh, load_new_fresh, hl]
        split <;> rfl

theorem shrink_to_fit_twice {α : Type} (T : ElemType α) (h : Heap α) (v : vector α)
    (hwf : WF h v) :
    (shrink_to_fit T (shrink_to_fit T h v).heap (shrink_to_fit T h v).self).self.m_size
        = (shrink_to_fit T h v).self.m_size ∧
      (shrink_to_fit T (shrink_to_fit T h v).heap (shrink_to_fit T h v).self).self.m_capacity
        = (shrink_to_fit T h v).self.m_capacity ∧
      elems (shrink_to_fit T (shrink_to_fit T h v).heap (shrink_to_fit T h v).self).heap
          (shrink_to_fit T (shrink_to_fit T h v).heap (shrink_to_fit T h v).self).self
        = elems (shrink_to_fit T h v).heap (shrink_to_fit T h v).self := by
  cases hthrew : (shrink_to_fit T h v).threw with
  | false =>
    have hs := shrink_to_fit_spec T h v hwf hthrew
    have hfit : (shrink_to_fit T h v).self.m_size = (shrink_to_fit T h v).self.m_capacity := by
      rw [hs.2.1, hs.2.2.2]
    have e : shrink_to_fit T (shrink_to_fit T h v).heap (shrink_to_fit T h v).self
        = ⟨false, (shrink_to_fit T h v).heap, (shrink_to_fit T h v).self⟩ := by
      generalize shrink_to_fit T h v = o at hfit
      simp only [shrink_to_fit, hfit, if_true]
    rw [e]
    exact ⟨rfl, rfl, rfl⟩
  | true =>
    have hg := shrink_to_fit_strong_guarantee T h v hwf hthrew
    have hw1 := wf_of_load_eq h (shrink_to_fit T h v).heap v hwf hg.2.1 hg.2.2
    rw [hg.1]
    have hthrew2 : (shrink_to_fit T (shrink_to_fit T h v).heap v).threw = true := by
      rw [shrink_to_fit_threw_congr T h _ v hwf.2.1 hg.2.2 hg.2.1, hthrew]
    have hg2 := shrink_to_fit_strong_guarantee T (shrink_to_fit T h v).heap v hw1.1 hthrew2
    rw [hg2.1]
    exact ⟨rfl, rfl, elems_of_take_eq _ _ _ _ (by rw [hg2.2.1])⟩

/-! ## What stays constructed in a released block -/

theorem getElem?_destroy_slots_of_lt {α : Type} (b : Block α) (i n k : Nat) (hk : k < i) :
    (destroy_slots b i n)[k]? = b[k]? := by
  have h1 := take_destroy_slots b i n i (Nat.le_refl i)
  have h2 : ((destroy_slots b i n).take i)[k]? = (b.take i)[k]? := by rw [h1]
  rwa [List.getElem?_take_of_lt hk, List.getElem?_take_of_lt hk] at h2

theorem getElem?_destroy_slots_of_ge {α : Type} (b : Block α) (i n k : Nat)
    (hk : i + n ≤ k) : (destroy_slots b i n)[k]? = b[k]? := by
  induction n generalizing b i with
  | zero => simp [destroy_slots]
  | succ m ih =>
    simp only [destroy_slots]
    rw [ih _ _ (by omega), List.getElem?_set_ne (by omega)]

theorem destroy_slots_eq {α : Type} (b : Block α) (i n : Nat) (hb : i + n ≤ b.length) :
    destroy_slots b i n = b.take i ++ List.replicate n none ++ b.drop (i + n) := by
  induction n generalizing b i with
  | zero => simp [destroy_slots]
  | succ m ih =>
    simp only [destroy_slots]
    rw [ih _ _ (by simp; omega), take_set_succ _ _ _ (by omega),
      drop_set_of_lt _ _ _ _ (by omega)]
    simp [List.replicate_succ, Nat.add_assoc, Nat.add_comm 1]

/-- The copy loop never touches destination slots behind the last source. -/
theorem getElem?_copy_loop_of_ge {α : Type} (T : ElemType α) (src : List (Option α))
    (i k : Nat) (d : Block α) (hk : i + src.length ≤ k) :
    (copy_loop T src i d).2[k]? = d[k]? := by
  induction src generalizing i d with
  | nil => simp [copy_loop]
  | cons y ys ih =>
    simp only [List.length_cons] at hk
    cases y with
    | none =>
      simp only [copy_loop]
      exact ih _ _ (by omega)
    | some x =>
      simp only [copy_loop]
      split
      · simp only []
        exact getElem?_destroy_slots_of_ge d 0 i k (by omega)
      · rw [ih _ _ (by omega), List.getElem?_set_ne (by omega)]

theorem getElem?_operator_delete_same {α : Type} (g : Heap α) (a : Nat)
    (hl : is_live g (some a) = true) :
    (operator_delete g (some a))[a]? = some (Cell.freed (load g (some a))) := by
  have hlt := is_live_lt g a hl
  simp only [is_live] at hl
  simp only [operator_delete, load]
  split at hl
  · rename_i c hc
    simp [hc, List.getElem?_set_self hlt]
  · simp at hl

/-- In `push_back`, when the copy of an existing element throws during relocation, the block
that is released still holds the new element as a constructed object. -/
theorem push_back_releases_live_element {α : Type} (T : ElemType α) (h : Heap α)
    (v : vector α) (x : α) (hwf : WF h v) (hfull : ¬ v.m_size < v.m_capacity)
    (halloc : T.bad_alloc (grown_capacity v.m_capacity) = false)
    (hmove : T.nothrow_move = false)
    (hthrow : ¬ ∀ y, y ∈ elems h v → T.copy_throws y = false) :
    (push_back T h v (some x)).threw = true ∧
      ∃ D, (push_back T h v (some x)).heap[h.length]? = some (Cell.freed D) ∧
        D[v.m_size]? = some (some x) := by
  have hsz : v.m_size = v.m_capacity := Nat.le_antisymm hwf.1 (Nat.le_of_not_lt hfull)
  have hg := grown_capacity_gt v.m_capacity
  have hne := fresh_ne_of_live h v.m_data (grown_capacity v.m_capacity) hwf.2.1
  have hlen := wf_length_elems h v hwf
  have hold : load (construct_at (operator_new h (grown_capacity v.m_capacity)).2
      (some (operator_new h (grown_capacity v.m_capacity)).1) v.m_size x) v.m_data
      = load h v.m_data := by
    rw [construct_at, load_store_ne _ _ _ _ (Ne.symm hne), load_new_old _ _ _ hwf.2.1]
  have hnew : load (construct_at (operator_new h (grown_capacity v.m_capacity)).2
      (some (operator_new h (grown_capacity v.m_capacity)).1) v.m_size x)
      (some (operator_new h (grown_capacity v.m_capacity)).1)
      = (List.replicate (grown_capacity v.m_capacity) none).set v.m_size (some x) := by
    rw [construct_at, load_store_same _ _ _ (is_live_new_fresh _ _), load_new_fresh]
  have hlive2 : is_live (construct_at (operator_new h (grown_capacity v.m_capacity)).2
      (some (operator_new h (grown_capacity v.m_capacity)).1) v.m_size x)
      (some (operator_new h (grown_capacity v.m_capacity)).1) = true := by
    rw [construct_at, is_live_store, is_live_new_fresh]
  have hr : ¬ (relocate_into_uninitialized T
      ((List.replicate (grown_capacity v.m_capacity) none).set v.m_size (some x))
      (load h v.m_data) v.m_size).ok = true := by
    intro hok
    apply hthrow
    simp only [relocate_into_uninitialized, hmove, Bool.false_eq_true, if_false,
      uninitialized_copy, wf_take h v hwf] at hok
    intro y hy
    exact copy_loop_fst_eq_true T _ 0 _ hok y (by simpa using hy)
  have hdest : (relocate_into_uninitialized T
      ((List.replicate (grown_capacity v.m_capacity) none).set v.m_size (some x))
      (load h v.m_data) v.m_size).dest[v.m_size]? = some (some x) := by
    simp only [relocate_into_uninitialized, hmove, Bool.false_eq_true, if_false,
      uninitialized_copy, wf_take h v hwf]
    rw [getElem?_copy_loop_of_ge T _ 0 v.m_size _ (by simp [hlen]),
      List.getElem?_set_self (by simp; omega)]
  simp only [push_back, hfull, if_false, halloc, Bool.false_eq_true, hold, hnew, hr]
  refine ⟨trivial, _, getElem?_operator_delete_same _ _ ?_, ?_⟩
  · rw [is_live_destroy_range, is_live_relocated, hlive2]
  · simp only [destroy_range, Nat.sub_self, destroy_slots, store_load_same]
    rw [load_relocated _ _ _ _ _ hne hlive2]
    exact hdest

/-- After a relocation the first `count` slots of the source still hold objects (the originals
after a copy, the moved-from objects after a move). -/
theorem relocate_src_holds_objects {α : Type} (T : ElemType α) (dest src : Block α)
    (xs : List α) (k : Nat) (hsrc : src.take xs.length = xs.map some) (hk : k < xs.length) :
    ∃ y, (relocate_into_uninitialized T dest src xs.length).src[k]? = some (some y) := by
  have hget : src[k]? = some (some xs[k]) := by
    have h1 : (src.take xs.length)[k]? = (xs.map some)[k]? := by rw [hsrc]
    rw [List.getElem?_take_of_lt hk, List.getElem?_map, List.getElem?_eq_getElem hk] at h1
    exact h1
  unfold relocate_into_uninitialized
  split
  · refine ⟨T.moved_from xs[k], ?_⟩
    simp only [uninitialized_move, hsrc]
    rw [List.getElem?_append_left (by simp; exact hk)]
    simp [List.getElem?_eq_getElem hk]
  · exact ⟨xs[k], hget⟩

theorem relocate_src_length {α : Type} (T : ElemType α) (dest src : Block α) (count : Nat) :
    (relocate_into_uninitialized T dest src count).src.length = src.length := by
  unfold relocate_into_uninitialized
  split
  · simp only [uninitialized_move, List.length_append, List.length_map, List.length_take,
      List.length_drop]
    omega
  · rfl

/-- The block `reserve` releases: the old block after the clean-up loop that starts at `i`. -/
theorem reserve_released_block {α : Type} (T : ElemType α) (h : Heap α) (v : vector α)
    (n i a : Nat) (hwf : WF h v) (ha : v.m_data = some a) (hn : v.m_capacity < n)
    (hok : (reserve T h v n i).threw = false) :
    (reserve T h v n i).heap[a]? = some (Cell.freed (destroy_slots
      (relocate_into_uninitialized T (List.replicate n none) (load h v.m_data) v.m_size).src
      i (v.m_size - i))) := by
  have hnle : ¬ n ≤ v.m_capacity := by omega
  have hne := fresh_ne_of_live h v.m_data n hwf.2.1
  have hlive1 := is_live_new_old h v.m_data n hwf.2.1
  simp only [reserve, hnle, if_false] at hok ⊢
  by_cases hba : T.bad_alloc n = true
  · simp [hba] at hok
  · simp only [hba, Bool.false_eq_true, if_false] at hok ⊢
    rw [load_new_old _ _ _ hwf.2.1, load_new_fresh] at hok ⊢
    by_cases hr : (relocate_into_uninitialized T (List.replicate n none)
        (load h v.m_data) v.m_size).ok = true
    · simp only [hr, if_true]
      rw [ha] at hlive1 ⊢
      rw [getElem?_operator_delete_same _ _
        (by rw [is_live_destroy_range, is_live_relocated]; exact hlive1)]
      simp only [destroy_range]
      rw [load_store_same _ _ _ (by rw [is_live_relocated]; exact hlive1),
        load_store_same _ _ _ (by rw [is_live_store]; exact hlive1)]
    · simp only [hr, Bool.false_eq_true, if_false] at hok
      simp at hok

/-- The clean-up loop of `reserve` skips every old element below its start value `i`: such an
element is still a constructed object when the old block is released.  Started at 0 the loop
destroys all `m_size` elements. -/
theorem reserve_cleanup_range {α : Type} (T : ElemType α) (h : Heap α) (v : vector α)
    (n i a : Nat) (hwf : WF h v) (ha : v.m_data = some a) (hn : v.m_capacity < n)
    (hok : (reserve T h v n i).threw = false) :
    ∃ D, (reserve T h v n i).heap[a]? = some (Cell.freed D) ∧
      (∀ k, k < i → k < v.m_size → ∃ y, D[k]? = some (some y)) ∧
      (∀ k, i ≤ k → k < v.m_size → D[k]? = some none) ∧
      (i = 0 → D.take v.m_size = List.replicate v.m_size none) := by
  have hlen := wf_length_elems h v hwf
  have htake : (load h v.m_data).take (elems h v).length = (elems h v).map some := by
    rw [hlen]; exact wf_take h v hwf
  have hSlen := relocate_src_length T (List.replicate n none) (load h v.m_data) v.m_size
  have hcap := hwf.1
  have hblk := hwf.2.2.1
  refine ⟨_, reserve_released_block T h v n i a hwf ha hn hok, fun k hki hks => ?_,
    fun k hik hks => ?_, fun hi => ?_⟩
  · rw [getElem?_destroy_slots_of_lt _ _ _ _ hki]
    have := relocate_src_holds_objects T (List.replicate n none) (load h v.m_data)
      (elems h v) k htake (by omega)
    rw [hlen] at this
    exact this
  · rw [destroy_slots_eq _ _ _ (by omega)]
    rw [List.getElem?_append_left (by simp; omega),
      List.getElem?_append_right (by simp; omega)]
    simp only [List.length_take, hSlen, hblk]
    rw [List.getElem?_replicate]
    simp
    omega
  · subst hi
    rw [destroy_slots_eq _ _ _ (by omega)]
    simp

/-! ## The states used in the examples are states the code produces -/

theorem init_list_builds_full_array :
    vector_init_list int_type [] [10, 20]
      = ([Cell.live [some 10, some 20]], some ⟨some 0, 2, 2⟩) := by
  decide

/-- The test `PushBackThreeElements`: three appends to a default-constructed array. -/
theorem test_push_back_three_elements :
    (vector_default int_type []).2 = some ⟨some 0, 0, 1⟩ ∧
    elems
      (push_back int_type
        (push_back int_type
          (push_back int_type (vector_default int_type []).1 ⟨some 0, 0, 1⟩ (some 10)).heap
          (push_back int_type (vector_default int_type []).1 ⟨some 0, 0, 1⟩ (some 10)).self
          (some 20)).heap
        (push_back int_type
          (push_back int_type (vector_default int_type []).1 ⟨some 0, 0, 1⟩ (some 10)).heap
          (push_back int_type (vector_default int_type []).1 ⟨some 0, 0, 1⟩ (some 10)).self
          (some 20)).self
        (some 30)).heap
      (push_back int_type
        (push_back int_type
          (push_back int_type (vector_default int_type []).1 ⟨some 0, 0, 1⟩ (some 10)).heap
          (push_back int_type (vector_default int_type []).1 ⟨some 0, 0, 1⟩ (some 10)).self
          (some 20)).heap
        (push_back int_type
          (push_back int_type (vector_default int_type []).1 ⟨some 0, 0, 1⟩ (some 10)).heap
          (push_back int_type (vector_default int_type []).1 ⟨some 0, 0, 1⟩ (some 10)).self
          (some 20)).self
        (some 30)).self
      = [10, 20, 30] := by
  decide

/-! ## Claims -/

/-- C1: a successful `push_back(x)` (and likewise `emplace_back` constructing `x`) on a
well-formed array yields an array whose length is the old length plus one and whose elements
are the old elements in order followed by `x`, on the spare-capacity path and on the
reallocating path alike.  Both calls do return when the allocation succeeds and the
relocation cannot throw. -/
theorem push_back_appends_value {α : Type} (T : ElemType α) (h : Heap α) (v : vector α) (x : α)
    (hwf : WF h v) :
    ((push_back T h v (some x)).threw = false →
      (push_back T h v (some x)).self.m_size = v.m_size + 1 ∧
      elems (push_back T h v (some x)).heap (push_back T h v (some x)).self
        = elems h v ++ [x]) ∧
    ((emplace_back T h v (some x)).threw = false →
      (emplace_back T h v (some x)).self.m_size = v.m_size + 1 ∧
      elems (emplace_back T h v (some x)).heap (emplace_back T h v (some x)).self
        = elems h v ++ [x]) ∧
    (T.bad_alloc (grown_capacity v.m_capacity) = false →
      (T.nothrow_move = true ∨ ∀ y, y ∈ elems h v → T.copy_throws y = false) →
      (push_back T h v (some x)).threw = false ∧
      (emplace_back T h v (some x)).threw = false) :=
  ⟨fun hok => ⟨(push_back_spec T h v x hwf hok).2.1, (push_back_spec T h v x hwf hok).2.2.1⟩,
   fun hok => ⟨(emplace_back_spec T h v x hwf hok).2.1,
     (emplace_back_spec T h v x hwf hok).2.2.1⟩,
   fun halloc hT => ⟨push_back_returns T h v x hwf halloc hT,
     emplace_back_returns T h v x hwf halloc hT⟩⟩

/-- Witness for C1: pushing 30 onto the full two-element array `[10, 20]` reallocates and
gives `[10, 20, 30]`. -/
theorem push_back_appends_value_witness :
    WF [Cell.live [some 10, some 20]] (⟨some 0, 2, 2⟩ : vector Int) ∧
    (push_back int_type [Cell.live [some 10, some 20]] ⟨some 0, 2, 2⟩ (some 30)).threw = false ∧
    (push_back int_type [Cell.live [some 10, some 20]] ⟨some 0, 2, 2⟩ (some 30)).self.m_size
      = 3 ∧
    elems (push_back int_type [Cell.live [some 10, some 20]] ⟨some 0, 2, 2⟩ (some 30)).heap
      (push_back int_type [Cell.live [some 10, some 20]] ⟨some 0, 2, 2⟩ (some 30)).self
      = [10, 20, 30] :=
  ⟨by decide, by decide,
   ((push_back_appends_value int_type [Cell.live [some 10, some 20]] ⟨some 0, 2, 2⟩ 30
      (by decide)).1 (by decide)).1,
   ((push_back_appends_value int_type [Cell.live [some 10, some 20]] ⟨some 0, 2, 2⟩ 30
      (by decide)).1 (by decide)).2⟩

/-- C2: `m_size <= m_capacity` holds for every array produced by a constructor (default, fill,
initializer-list, copy, move) and is preserved by `push_back`, `emplace_back`, `pop_back` on a
non-empty array, `reserve`, `resize`, `clear`, `shrink_to_fit`, `swap`, copy-assignment and
move-assignment, whether the operation returns or throws. -/
theorem size_le_capacity_invariant {α : Type} (T : ElemType α) (h : Heap α)
    (v other : vector α) (value : Option α) (n i : Nat) (x : α) (list : List α)
    (same_object : Bool) (hv : Inv v) (ho : Inv other) :
    (∀ w, (vector_default T h).2 = some w → Inv w) ∧
    (∀ w, (vector_fill T h n x).2 = some w → Inv w) ∧
    (∀ w, (vector_init_list T h list).2 = some w → Inv w) ∧
    (∀ w, (vector_copy T h other).2 = some w → Inv w) ∧
    (Inv (vector_move other).1 ∧ Inv (vector_move other).2) ∧
    Inv (push_back T h v value).self ∧
    Inv (emplace_back T h v value).self ∧
    (0 < v.m_size → Inv (pop_back h v).self) ∧
    Inv (reserve T h v n i).self ∧
    Inv (resize T h v n i).self ∧
    Inv (clear h v).self ∧
    Inv (shrink_to_fit T h v).self ∧
    (Inv (swap v other).1 ∧ Inv (swap v other).2) ∧
    Inv (copy_assign T h v other).self ∧
    (Inv (move_assign h v other same_object).2.1 ∧
      Inv (move_assign h v other same_object).2.2) := by
  refine ⟨(inv_constructors T h n x list).1, (inv_constructors T h n x list).2.1,
    (inv_constructors T h n x list).2.2, fun w hw => inv_vector_copy T h other w ho hw,
    ⟨ho, ?_⟩, inv_push_back T h v value hv, inv_emplace_back T h v value hv, ?_,
    inv_reserve T h v n i hv, inv_resize T h v n i hv, ?_, inv_shrink_to_fit T h v hv,
    ⟨ho, hv⟩, inv_copy_assign T h v other hv ho, ?_⟩
  · simp [Inv, vector_move]
  · intro hpos
    unfold Inv at hv ⊢
    have hne : v.m_size ≠ 0 := by omega
    simp only [pop_back, hne, if_false]
    omega
  · simp [Inv, clear]
  · cases same_object with
    | true => exact ⟨hv, ho⟩
    | false => exact ⟨ho, by simp [Inv, move_assign]⟩

/-- Witness for C2 on the full array `[10, 20]` and the array `[5]` with one spare slot. -/
theorem size_le_capacity_invariant_witness :
    Inv (⟨some 0, 2, 2⟩ : vector Int) ∧ Inv (⟨some 1, 1, 2⟩ : vector Int) ∧
    Inv (push_back int_type [Cell.live [some 10, some 20], Cell.live [some 5, none]]
      ⟨some 0, 2, 2⟩ (some 30)).self ∧
    Inv (resize int_type [Cell.live [some 10, some 20], Cell.live [some 5, none]]
      ⟨some 0, 2, 2⟩ 7 0).self :=
  ⟨by decide, by decide,
   (size_le_capacity_invariant int_type
      [Cell.live [some 10, some 20], Cell.live [some 5, none]] ⟨some 0, 2, 2⟩ ⟨some 1, 1, 2⟩
      (some 30) 7 0 0 [] false (by decide) (by decide)).2.2.2.2.2.1,
   (size_le_capacity_invariant int_type
      [Cell.live [some 10, some 20], Cell.live [some 5, none]] ⟨some 0, 2, 2⟩ ⟨some 1, 1, 2⟩
      (some 30) 7 0 0 [] false (by decide) (by decide)).2.2.2.2.2.2.2.2.2.1⟩

/-- C3: on an array with `m_size == m_capacity == c`, a `push_back` (or `emplace_back`) that
returns yields capacity `max(1, 2c)` and length `c + 1`; on an array with
`m_size < m_capacity`, `push_back` (or `emplace_back`) leaves the capacity unchanged. -/
theorem push_back_growth_doubling {α : Type} (T : ElemType α) (h : Heap α) (v : vector α)
    (value : Option α) (c : Nat) :
    (v.m_size = c → v.m_capacity = c →
      ((push_back T h v value).threw = false →
        (push_back T h v value).self.m_capacity = max 1 (2 * c) ∧
        (push_back T h v value).self.m_size = c + 1) ∧
      ((emplace_back T h v value).threw = false →
        (emplace_back T h v value).self.m_capacity = max 1 (2 * c) ∧
        (emplace_back T h v value).self.m_size = c + 1)) ∧
    (v.m_size < v.m_capacity →
      (push_back T h v value).self.m_capacity = v.m_capacity ∧
      (emplace_back T h v value).self.m_capacity = v.m_capacity) := by
  have hp := push_back_fields T h v value
  have he := emplace_back_fields T h v value
  refine ⟨fun hs hc => ⟨fun hok => ?_, fun hok => ?_⟩, fun hlt => ⟨?_, ?_⟩⟩
  · have := hp.1 hok
    rw [hs, hc] at this
    simpa [grown_capacity_eq_max] using this.symm
  · have := he.1 hok
    rw [hs, hc] at this
    simpa [grown_capacity_eq_max] using this.symm
  · cases hthrew : (push_back T h v value).threw with
    | false => simpa [hlt] using (hp.1 hthrew).2
    | true => rw [hp.2 hthrew]
  · cases hthrew : (emplace_back T h v value).threw with
    | false => simpa [hlt] using (he.1 hthrew).2
    | true => rw [he.2 hthrew]

/-- Witness for C3: the full array `[10, 20]` grows to capacity 4, the empty array without
storage to capacity 1, and the array `[5]` with a spare slot keeps capacity 2. -/
theorem push_back_growth_doubling_witness :
    ((push_back int_type [Cell.live [some 10, some 20]] ⟨some 0, 2, 2⟩ (some 30)).self.m_capacity
        = max 1 (2 * 2) ∧
      (push_back int_type [Cell.live [some 10, some 20]] ⟨some 0, 2, 2⟩ (some 30)).self.m_size
        = 2 + 1) ∧
    ((emplace_back int_type [] ⟨none, 0, 0⟩ (some 30)).self.m_capacity = max 1 (2 * 0) ∧
      (emplace_back int_type [] ⟨none, 0, 0⟩ (some 30)).self.m_size = 0 + 1) ∧
    (push_back int_type [Cell.live [some 5, none]] ⟨some 0, 1, 2⟩ (some 6)).self.m_capacity
      = 2 :=
  ⟨((push_back_growth_doubling int_type [Cell.live [some 10, some 20]] ⟨some 0, 2, 2⟩
      (some 30) 2).1 rfl rfl).1 (by decide),
   ((push_back_growth_doubling int_type [] ⟨none, 0, 0⟩ (some 30) 0).1 rfl rfl).2
      (by decide),
   ((push_back_growth_doubling int_type [Cell.live [some 5, none]] ⟨some 0, 1, 2⟩
      (some 6) 0).2 (by decide)).1⟩

/-- C4 (the code at the failing input): the full one-element array `[3]` of a type with a
`noexcept` move constructor; `emplace_back` whose element constructor throws reports the
failure, keeps length 1 and capacity 1, but the element left in the array is the moved-from
value `0` instead of `3`.  `push_back` on the same input leaves `[3]`. -/
theorem emplace_back_throw_leaves_moved_from :
    elems [Cell.live [some 3]] (⟨some 0, 1, 1⟩ : vector Nat) = [3] ∧
    (emplace_back string_type [Cell.live [some 3]] ⟨some 0, 1, 1⟩ none).threw = true ∧
    (emplace_back string_type [Cell.live [some 3]] ⟨some 0, 1, 1⟩ none).self = ⟨some 0, 1, 1⟩ ∧
    elems (emplace_back string_type [Cell.live [some 3]] ⟨some 0, 1, 1⟩ none).heap
      (emplace_back string_type [Cell.live [some 3]] ⟨some 0, 1, 1⟩ none).self = [0] ∧
    (push_back string_type [Cell.live [some 3]] ⟨some 0, 1, 1⟩ none).threw = true ∧
    elems (push_back string_type [Cell.live [some 3]] ⟨some 0, 1, 1⟩ none).heap
      (push_back string_type [Cell.live [some 3]] ⟨some 0, 1, 1⟩ none).self = [3] := by
  decide

/-- C5 (counterexample): `resize(3)` on the full one-element array `[5]` of a type whose
second value-initialisation throws.  The call throws, yet the capacity has changed from 1
to 3: the reservation made before the construction loop is kept. -/
theorem resize_failure_changes_capacity :
    WF [Cell.live [some 5]] (⟨some 0, 1, 1⟩ : vector Nat) ∧
    (resize throwing_type [Cell.live [some 5]] ⟨some 0, 1, 1⟩ 3 0).threw = true ∧
    (resize throwing_type [Cell.live [some 5]] ⟨some 0, 1, 1⟩ 3 0).self.m_capacity = 3 ∧
    (resize throwing_type [Cell.live [some 5]] ⟨some 0, 1, 1⟩ 3 0).self.m_capacity
      ≠ (⟨some 0, 1, 1⟩ : vector Nat).m_capacity := by
  decide

/-- C5 (amended): when a growing `resize(new_size)` throws, the length and the elements are
those from before the call.  If the exception comes from the `reserve` step the object and
its storage are untouched; if it comes from value-initialising a new element the capacity is
`max(old capacity, new_size)`. -/
theorem resize_failure_keeps_length_and_elements {α : Type} (T : ElemType α) (h : Heap α)
    (v : vector α) (new_size i : Nat) (hwf : WF h v) (hgrow : v.m_size < new_size)
    (hthrew : (resize T h v new_size i).threw = true) :
    (resize T h v new_size i).self.m_size = v.m_size ∧
      elems (resize T h v new_size i).heap (resize T h v new_size i).self = elems h v ∧
      ((reserve T h v new_size i).threw = true →
        (resize T h v new_size i).self = v ∧
        load (resize T h v new_size i).heap v.m_data = load h v.m_data) ∧
      ((reserve T h v new_size i).threw = false →
        (resize T h v new_size i).self.m_capacity = max v.m_capacity new_size) := by
  have h1 : ¬ new_size = v.m_size := by omega
  have h2 : ¬ new_size < v.m_size := by omega
  simp only [resize, h1, h2, if_false] at hthrew ⊢
  by_cases hr : (reserve T h v new_size i).threw = true
  · have hg := reserve_strong_guarantee T h v new_size i hwf hr
    simp only [hr, if_true]
    refine ⟨by rw [hg.1], ?_, fun _ => ⟨hg.1, hg.2.1⟩, fun hc => by simp at hc⟩
    apply elems_of_take_eq
    rw [hg.1, hg.2.1]
  · have hr2 : (reserve T h v new_size i).threw = false := by simpa using hr
    simp only [hr, Bool.false_eq_true, if_false] at hthrew ⊢
    have hs := reserve_spec T h v new_size i hwf hr2
    have hcap : new_size ≤ (reserve T h v new_size i).self.m_capacity := by
      rw [hs.2.2.2]; split <;> omega
    have hc := resize_construct_spec T (reserve T h v new_size i).heap
      (reserve T h v new_size i).self new_size hs.1 (by rw [hs.2.1]; exact hgrow) hcap
    split at hthrew
    · simp at hthrew
    · rename_i hc1
      simp only [hc1, Bool.false_eq_true, if_false]
      refine ⟨hs.2.1, by rw [hc.1, hs.2.2.1], fun hc => by simp [hr2] at hc, fun _ => ?_⟩
      rw [hs.2.2.2]
      split <;> omega

/-- Witness for C5 (amended): the failing `resize(3)` on `[5]` keeps length 1 and the
element 5. -/
theorem resize_failure_keeps_length_and_elements_witness :
    WF [Cell.live [some 5]] (⟨some 0, 1, 1⟩ : vector Nat) ∧
    (resize throwing_type [Cell.live [some 5]] ⟨some 0, 1, 1⟩ 3 0).threw = true ∧
    (resize throwing_type [Cell.live [some 5]] ⟨some 0, 1, 1⟩ 3 0).self.m_size = 1 ∧
    elems (resize throwing_type [Cell.live [some 5]] ⟨some 0, 1, 1⟩ 3 0).heap
      (resize throwing_type [Cell.live [some 5]] ⟨some 0, 1, 1⟩ 3 0).self
      = elems [Cell.live [some 5]] ⟨some 0, 1, 1⟩ :=
  ⟨by decide, by decide,
   (resize_failure_keeps_length_and_elements throwing_type [Cell.live [some 5]]
      ⟨some 0, 1, 1⟩ 3 0 (by decide) (by decide) (by decide)).1,
   (resize_failure_keeps_length_and_elements throwing_type [Cell.live [some 5]]
      ⟨some 0, 1, 1⟩ 3 0 (by decide) (by decide) (by decide)).2.1⟩

/-- C6: a `reserve(n)` that returns leaves the length and all elements unchanged; it changes
nothing at all when `n <= m_capacity`, and otherwise the capacity becomes exactly `n`, so
that `m_capacity >= n` afterwards in every case.  The call does return when the allocation
succeeds and the relocation cannot throw. -/
theorem reserve_keeps_elements {α : Type} (T : ElemType α) (h : Heap α) (v : vector α)
    (n i : Nat) (hwf : WF h v) :
    (n ≤ v.m_capacity → reserve T h v n i = ⟨false, h, v⟩) ∧
    ((reserve T h v n i).threw = false →
      (reserve T h v n i).self.m_size = v.m_size ∧
      elems (reserve T h v n i).heap (reserve T h v n i).self = elems h v ∧
      (v.m_capacity < n → (reserve T h v n i).self.m_capacity = n) ∧
      n ≤ (reserve T h v n i).self.m_capacity) ∧
    (T.bad_alloc n = false →
      (T.nothrow_move = true ∨ ∀ y, y ∈ elems h v → T.copy_throws y = false) →
      (reserve T h v n i).threw = false) := by
  refine ⟨fun hn => by simp [reserve, hn], fun hok => ?_,
    fun halloc hT => reserve_returns T h v n i hwf halloc hT⟩
  have hs := reserve_spec T h v n i hwf hok
  refine ⟨hs.2.1, hs.2.2.1, fun hlt => ?_, ?_⟩
  · rw [hs.2.2.2, if_neg (by omega)]
  · rw [hs.2.2.2]
    split <;> omega

/-- Witness for C6: `reserve(12)` on the array `[1, 2]` of capacity 2. -/
theorem reserve_keeps_elements_witness :
    WF [Cell.live [some 1, some 2]] (⟨some 0, 2, 2⟩ : vector Int) ∧
    (reserve int_type [Cell.live [some 1, some 2]] ⟨some 0, 2, 2⟩ 12 0).threw = false ∧
    (reserve int_type [Cell.live [some 1, some 2]] ⟨some 0, 2, 2⟩ 12 0).self.m_size = 2 ∧
    elems (reserve int_type [Cell.live [some 1, some 2]] ⟨some 0, 2, 2⟩ 12 0).heap
      (reserve int_type [Cell.live [some 1, some 2]] ⟨some 0, 2, 2⟩ 12 0).self = [1, 2] ∧
    (reserve int_type [Cell.live [some 1, some 2]] ⟨some 0, 2, 2⟩ 12 0).self.m_capacity = 12 :=
  ⟨by decide, by decide,
   ((reserve_keeps_elements int_type [Cell.live [some 1, some 2]] ⟨some 0, 2, 2⟩ 12 0
      (by decide)).2.1 (by decide)).1,
   ((reserve_keeps_elements int_type [Cell.live [some 1, some 2]] ⟨some 0, 2, 2⟩ 12 0
      (by decide)).2.1 (by decide)).2.1,
   ((reserve_keeps_elements int_type [Cell.live [some 1, some 2]] ⟨some 0, 2, 2⟩ 12 0
      (by decide)).2.1 (by decide)).2.2.1 (by decide)⟩

/-- C7: for an element type whose value-initialisation always yields `zero` (a numeric
type), a `resize(n)` that returns gives length `n`; the elements are the first
`min(n, old length)` old elements in order followed by `zero` at every index in
`[old length, n)`.  Growing to `n` and then resizing to `m <= old length` returns without
throwing and gives exactly the first `m` original elements.  `resize(n)` does return when
the allocation succeeds and the relocation cannot throw. -/
theorem resize_value_initialises {α : Type} (T : ElemType α) (h : Heap α) (v : vector α)
    (n i : Nat) (zero : α) (hwf : WF h v) (hzero : ∀ k, T.default_ctor k = some zero) :
    ((resize T h v n i).threw = false →
      (resize T h v n i).self.m_size = n ∧
      elems (resize T h v n i).heap (resize T h v n i).self
        = (elems h v).take (min n v.m_size) ++ List.replicate (n - v.m_size) zero) ∧
    (∀ m j, v.m_size ≤ n → m ≤ v.m_size → (resize T h v n i).threw = false →
      (resize T (resize T h v n i).heap (resize T h v n i).self m j).threw = false ∧
      (resize T (resize T h v n i).heap (resize T h v n i).self m j).self.m_size = m ∧
      elems (resize T (resize T h v n i).heap (resize T h v n i).self m j).heap
        (resize T (resize T h v n i).heap (resize T h v n i).self m j).self
        = (elems h v).take m) ∧
    (T.bad_alloc n = false →
      (T.nothrow_move = true ∨ ∀ y, y ∈ elems h v → T.copy_throws y = false) →
      (resize T h v n i).threw = false) := by
  have hxs := wf_length_elems h v hwf
  have htk : (elems h v).take (min n v.m_size) = (elems h v).take n := by
    rw [← hxs, ← List.take_take, List.take_length]
  refine ⟨fun hok => ?_, fun m j hn hm hok => ?_,
    fun halloc hT => resize_returns T h v n i zero hwf hzero halloc hT⟩
  · have hs := resize_spec T h v n i zero hwf hzero hok
    exact ⟨hs.2.1, by rw [htk]; exact hs.2.2⟩
  · have hs := resize_spec T h v n i zero hwf hzero hok
    have hok2 := resize_no_throw_of_le T (resize T h v n i).heap (resize T h v n i).self m j
      (by rw [hs.2.1]; omega)
    have hs2 := resize_spec T (resize T h v n i).heap (resize T h v n i).self m j zero
      hs.1 hzero hok2
    refine ⟨hok2, hs2.2.1, ?_⟩
    rw [hs2.2.2, hs.2.2, hs.2.1, Nat.sub_eq_zero_of_le (by omega : m ≤ n),
      List.take_of_length_le (by omega : (elems h v).length ≤ n)]
    simp [List.take_append_eq_append_take, hxs, Nat.sub_eq_zero_of_le hm]

/-- Witness for C7: `resize(5)` on `[1, 2, 3]` gives `[1, 2, 3, 0, 0]`, then `resize(2)`
gives `[1, 2]`. -/
theorem resize_value_initialises_witness :
    WF [Cell.live [some 1, some 2, some 3]] (⟨some 0, 3, 3⟩ : vector Int) ∧
    elems (resize int_type [Cell.live [some 1, some 2, some 3]] ⟨some 0, 3, 3⟩ 5 0).heap
      (resize int_type [Cell.live [some 1, some 2, some 3]] ⟨some 0, 3, 3⟩ 5 0).self
      = [1, 2, 3, 0, 0] ∧
    elems (resize int_type
        (resize int_type [Cell.live [some 1, some 2, some 3]] ⟨some 0, 3, 3⟩ 5 0).heap
        (resize int_type [Cell.live [some 1, some 2, some 3]] ⟨some 0, 3, 3⟩ 5 0).self 2 0).heap
      (resize int_type
        (resize int_type [Cell.live [some 1, some 2, some 3]] ⟨some 0, 3, 3⟩ 5 0).heap
        (resize int_type [Cell.live [some 1, some 2, some 3]] ⟨some 0, 3, 3⟩ 5 0).self 2 0).self
      = [1, 2] :=
  ⟨by decide,
   ((resize_value_initialises int_type [Cell.live [some 1, some 2, some 3]] ⟨some 0, 3, 3⟩
      5 0 0 (by decide) (fun _ => rfl)).1 (by decide)).2,
   ((resize_value_initialises int_type [Cell.live [some 1, some 2, some 3]] ⟨some 0, 3, 3⟩
      5 0 0 (by decide) (fun _ => rfl)).2.1 2 0 (by decide) (by decide) (by decide)).2.2⟩

/-- C8: copy-constructing from a well-formed array `A` yields an array with the length of `A`
and the elements of `A` in the same order, whose capacity is that of `A` when `A` is
non-empty and 0 when `A` is empty.  `A` (its storage and its elements) is unchanged by the
copy and by any later write `B[idx] = x` to the copy, while the copy itself sees that
write.  The constructor does return when the allocation succeeds and no element copy
throws. -/
theorem copy_constructor_deep_copy {α : Type} (T : ElemType α) (h : Heap α) (A : vector α)
    (hwf : WF h A) :
    (∀ B, (vector_copy T h A).2 = some B →
      B.m_size = A.m_size ∧
      elems (vector_copy T h A).1 B = elems h A ∧
      (A.m_size ≠ 0 → B.m_capacity = A.m_capacity) ∧
      (A.m_size = 0 → B.m_capacity = 0) ∧
      load (vector_copy T h A).1 A.m_data = load h A.m_data ∧
      elems (vector_copy T h A).1 A = elems h A ∧
      (∀ idx x,
        load (assign_index (vector_copy T h A).1 B idx x) A.m_data = load h A.m_data ∧
        elems (assign_index (vector_copy T h A).1 B idx x) A = elems h A ∧
        (idx < B.m_size →
          index (assign_index (vector_copy T h A).1 B idx x) B idx = some x))) ∧
    (T.bad_alloc A.m_capacity = false → (∀ y, y ∈ elems h A → T.copy_throws y = false) →
      ((vector_copy T h A).2).isSome = true) := by
  refine ⟨fun B hB => ?_, fun halloc hT => vector_copy_returns T h A hwf halloc hT⟩
  have hs := vector_copy_spec T h A B hwf hB
  have hf := vector_copy_frame T h A A.m_data hwf.2.1
  have hsep := fresh_separate h B.m_data A.m_data hs.2.2.2.2 hwf.2.1
  refine ⟨hs.2.1, hs.2.2.1, fun hne => ?_, fun hz => ?_, hf.1, ?_, fun idx x => ⟨?_, ?_, ?_⟩⟩
  · rw [hs.2.2.2.1, if_neg hne]
  · rw [hs.2.2.2.1, if_pos hz]
  · exact elems_of_take_eq _ _ _ _ (by rw [hf.1])
  · rw [load_assign_index_ne _ _ _ _ _ hsep, hf.1]
  · exact elems_of_take_eq _ _ _ _ (by rw [load_assign_index_ne _ _ _ _ _ hsep, hf.1])
  · exact fun hidx => index_assign_index _ _ _ _ hs.1 hidx

/-- Witness for C8: copying `[10, 20, 30]` (capacity 4) and then writing `99` to element 0 of
the copy leaves the original `[10, 20, 30]`. -/
theorem copy_constructor_deep_copy_witness :
    WF [Cell.live [some 10, some 20, some 30, none]] (⟨some 0, 3, 4⟩ : vector Int) ∧
    (vector_copy int_type [Cell.live [some 10, some 20, some 30, none]] ⟨some 0, 3, 4⟩).2
      = some ⟨some 1, 3, 4⟩ ∧
    elems (vector_copy int_type [Cell.live [some 10, some 20, some 30, none]]
      ⟨some 0, 3, 4⟩).1 ⟨some 1, 3, 4⟩
      = elems [Cell.live [some 10, some 20, some 30, none]] (⟨some 0, 3, 4⟩ : vector Int) ∧
    elems (assign_index (vector_copy int_type [Cell.live [some 10, some 20, some 30, none]]
      ⟨some 0, 3, 4⟩).1 ⟨some 1, 3, 4⟩ 0 99) ⟨some 0, 3, 4⟩
      = elems [Cell.live [some 10, some 20, some 30, none]] (⟨some 0, 3, 4⟩ : vector Int) :=
  ⟨by decide, by decide,
   ((copy_constructor_deep_copy int_type [Cell.live [some 10, some 20, some 30, none]]
      ⟨some 0, 3, 4⟩ (by decide)).1 ⟨some 1, 3, 4⟩ (by decide)).2.1,
   (((copy_constructor_deep_copy int_type [Cell.live [some 10, some 20, some 30, none]]
      ⟨some 0, 3, 4⟩ (by decide)).1 ⟨some 1, 3, 4⟩ (by decide)).2.2.2.2.2.2 0 99).2.1⟩

/-- C9: after a copy-assignment `a = b` that returns, `a` has the length and the elements of
`b` in order, with the capacity of `b` when `b` is non-empty and 0 when `b` is empty, and
`b` (a distinct object sharing no storage with `a`) is unchanged; when the copy throws, `a`
and its storage are left as they were; self-assignment `a = a` leaves the length and the
elements of `a` unchanged.  The assignment does return when the allocation succeeds and no
element copy throws. -/
theorem copy_assignment_copies {α : Type} (T : ElemType α) (h : Heap α) (a b : vector α)
    (hwa : WF h a) (hwb : WF h b) :
    ((copy_assign T h a b).threw = false →
      (copy_assign T h a b).self.m_size = b.m_size ∧
      elems (copy_assign T h a b).heap (copy_assign T h a b).self = elems h b ∧
      (b.m_size ≠ 0 → (copy_assign T h a b).self.m_capacity = b.m_capacity) ∧
      (b.m_size = 0 → (copy_assign T h a b).self.m_capacity = 0) ∧
      (Separate a b →
        load (copy_assign T h a b).heap b.m_data = load h b.m_data ∧
        WF (copy_assign T h a b).heap b ∧
        elems (copy_assign T h a b).heap b = elems h b)) ∧
    ((copy_assign T h a b).threw = true →
      (copy_assign T h a b).self = a ∧
      load (copy_assign T h a b).heap a.m_data = load h a.m_data ∧
      elems (copy_assign T h a b).heap (copy_assign T h a b).self = elems h a) ∧
    ((copy_assign T h a a).self.m_size = a.m_size ∧
      elems (copy_assign T h a a).heap (copy_assign T h a a).self = elems h a) ∧
    (T.bad_alloc b.m_capacity = false → (∀ y, y ∈ elems h b → T.copy_throws y = false) →
      (copy_assign T h a b).threw = false) := by
  refine ⟨fun hok => ?_, fun hthrew => ?_, ?_,
    fun halloc hT => copy_assign_returns T h a b hwb halloc hT⟩
  · have hs := copy_assign_spec T h a b hwa hwb hok
    refine ⟨hs.2.1, hs.2.2.1, fun hne => ?_, fun hz => ?_, fun hsep => ?_⟩
    · rw [hs.2.2.2.1, if_neg hne]
    · rw [hs.2.2.2.1, if_pos hz]
    · have hq := hs.2.2.2.2 b.m_data hwb.2.1 hsep
      have hw := wf_of_load_eq h (copy_assign T h a b).heap b hwb hq.1 hq.2
      exact ⟨hq.1, hw.1, hw.2⟩
  · have hg := copy_assign_strong_guarantee T h a b hwa hthrew
    refine ⟨hg.1, hg.2.1, ?_⟩
    rw [hg.1]
    exact (wf_of_load_eq h _ a hwa hg.2.1 hg.2.2).2
  · cases hthrew : (copy_assign T h a a).threw with
    | false =>
      have hs := copy_assign_spec T h a a hwa hwa hthrew
      exact ⟨hs.2.1, hs.2.2.1⟩
    | true =>
      have hg := copy_assign_strong_guarantee T h a a hwa hthrew
      rw [hg.1]
      exact ⟨rfl, (wf_of_load_eq h _ a hwa hg.2.1 hg.2.2).2⟩

/-- Witness for C9: assigning `[10, 20]` to the array `[9]`. -/
theorem copy_assignment_copies_witness :
    WF [Cell.live [some 9], Cell.live [some 10, some 20]] (⟨some 0, 1, 1⟩ : vector Int) ∧
    WF [Cell.live [some 9], Cell.live [some 10, some 20]] (⟨some 1, 2, 2⟩ : vector Int) ∧
    (copy_assign int_type [Cell.live [some 9], Cell.live [some 10, some 20]]
      ⟨some 0, 1, 1⟩ ⟨some 1, 2, 2⟩).self.m_size = 2 ∧
    elems (copy_assign int_type [Cell.live [some 9], Cell.live [some 10, some 20]]
      ⟨some 0, 1, 1⟩ ⟨some 1, 2, 2⟩).heap
      (copy_assign int_type [Cell.live [some 9], Cell.live [some 10, some 20]]
      ⟨some 0, 1, 1⟩ ⟨some 1, 2, 2⟩).self
      = elems [Cell.live [some 9], Cell.live [some 10, some 20]] ⟨some 1, 2, 2⟩ :=
  ⟨by decide, by decide,
   ((copy_assignment_copies int_type [Cell.live [some 9], Cell.live [some 10, some 20]]
      ⟨some 0, 1, 1⟩ ⟨some 1, 2, 2⟩ (by decide) (by decide)).1 (by decide)).1,
   ((copy_assignment_copies int_type [Cell.live [some 9], Cell.live [some 10, some 20]]
      ⟨some 0, 1, 1⟩ ⟨some 1, 2, 2⟩ (by decide) (by decide)).1 (by decide)).2.1⟩

/-- C10: move-construction from `s`, and move-assignment from `s` into a distinct array `d`
that shares no storage with it, leave the destination with the prior length, capacity and
elements (in order) of `s`, and leave `s` with `m_size == m_capacity == 0`. -/
theorem move_transfers_elements {α : Type} (h : Heap α) (d s : vector α) :
    ((vector_move s).1.m_size = s.m_size ∧
      (vector_move s).1.m_capacity = s.m_capacity ∧
      elems h (vector_move s).1 = elems h s ∧
      (vector_move s).2.m_size = 0 ∧ (vector_move s).2.m_capacity = 0) ∧
    (Separate d s →
      (move_assign h d s false).2.1.m_size = s.m_size ∧
      (move_assign h d s false).2.1.m_capacity = s.m_capacity ∧
      elems (move_assign h d s false).1 (move_assign h d s false).2.1 = elems h s ∧
      (WF h s → WF (move_assign h d s false).1 (move_assign h d s false).2.1) ∧
      (move_assign h d s false).2.2.m_size = 0 ∧
      (move_assign h d s false).2.2.m_capacity = 0) := by
  refine ⟨⟨rfl, rfl, rfl, rfl, rfl⟩, fun hsep => ⟨rfl, rfl, ?_, fun hws => ?_, rfl, rfl⟩⟩
  · have hl : load (operator_delete (destroy_range h d.m_data 0 d.m_size) d.m_data) s.m_data
        = load h s.m_data := by
      rcases hsep with hnone | hne
      · rw [hnone]; rfl
      · exact load_retire_ne _ _ _ _ _ hne
    exact elems_of_take_eq _ _ _ _ (by simp only [move_assign, Bool.false_eq_true, if_false, hl])
  · have hl : load (operator_delete (destroy_range h d.m_data 0 d.m_size) d.m_data) s.m_data
        = load h s.m_data ∧
        is_live (operator_delete (destroy_range h d.m_data 0 d.m_size) d.m_data) s.m_data
          = true := by
      rcases hsep with hnone | hne
      · rw [hnone]; exact ⟨rfl, hws.2.1⟩
      · exact ⟨load_retire_ne _ _ _ _ _ hne,
          by rw [is_live_retire_ne _ _ _ _ _ hne]; exact hws.2.1⟩
    exact (wf_of_load_eq h _ s hws hl.1 hl.2).1

/-- Witness for C10: move-assigning `[7, 8]` into the array `[100]`. -/
theorem move_transfers_elements_witness :
    Separate (⟨some 0, 1, 1⟩ : vector Int) ⟨some 1, 2, 2⟩ ∧
    elems (move_assign [Cell.live [some 100], Cell.live [some 7, some 8]]
        (⟨some 0, 1, 1⟩ : vector Int) ⟨some 1, 2, 2⟩ false).1
      (move_assign [Cell.live [some 100], Cell.live [some 7, some 8]]
        (⟨some 0, 1, 1⟩ : vector Int) ⟨some 1, 2, 2⟩ false).2.1
      = elems [Cell.live [some 100], Cell.live [some 7, some 8]] ⟨some 1, 2, 2⟩ ∧
    (move_assign [Cell.live [some 100], Cell.live [some 7, some 8]]
        (⟨some 0, 1, 1⟩ : vector Int) ⟨some 1, 2, 2⟩ false).2.2.m_capacity = 0 :=
  ⟨by decide,
   ((move_transfers_elements [Cell.live [some 100], Cell.live [some 7, some 8]]
      ⟨some 0, 1, 1⟩ ⟨some 1, 2, 2⟩).2 (by decide)).2.2.1,
   ((move_transfers_elements [Cell.live [some 100], Cell.live [some 7, some 8]]
      ⟨some 0, 1, 1⟩ ⟨some 1, 2, 2⟩).2 (by decide)).2.2.2.2.2⟩

/-- C11: a `shrink_to_fit()` that returns leaves the length and all elements unchanged and
makes `m_capacity == m_size`; on an array of length 0 it gives length 0 and capacity 0.  The
call does return when the allocation succeeds and the relocation cannot throw. -/
theorem shrink_to_fit_fits {α : Type} (T : ElemType α) (h : Heap α) (v : vector α)
    (hwf : WF h v) :
    ((shrink_to_fit T h v).threw = false →
      (shrink_to_fit T h v).self.m_size = v.m_size ∧
      elems (shrink_to_fit T h v).heap (shrink_to_fit T h v).self = elems h v ∧
      (shrink_to_fit T h v).self.m_capacity = (shrink_to_fit T h v).self.m_size) ∧
    (v.m_size = 0 →
      (shrink_to_fit T h v).threw = false ∧
      (shrink_to_fit T h v).self.m_size = 0 ∧
      (shrink_to_fit T h v).self.m_capacity = 0) ∧
    (T.bad_alloc v.m_size = false →
      (T.nothrow_move = true ∨ ∀ y, y ∈ elems h v → T.copy_throws y = false) →
      (shrink_to_fit T h v).threw = false) := by
  refine ⟨fun hok => ?_, fun hz => ?_,
    fun halloc hT => shrink_to_fit_returns T h v hwf halloc hT⟩
  · have hs := shrink_to_fit_spec T h v hwf hok
    exact ⟨hs.2.1, hs.2.2.1, by rw [hs.2.2.2, hs.2.1]⟩
  · have hok : (shrink_to_fit T h v).threw = false := by
      unfold shrink_to_fit
      split
      · rfl
      · simp [hz]
    have hs := shrink_to_fit_spec T h v hwf hok
    exact ⟨hok, by rw [hs.2.1, hz], by rw [hs.2.2.2, hz]⟩

/-- Witness for C11: the array `[1, 2, 3]` with capacity 5 shrinks to capacity 3, and the
empty array with capacity 10 to capacity 0. -/
theorem shrink_to_fit_fits_witness :
    WF [Cell.live [some 1, some 2, some 3, none, none]] (⟨some 0, 3, 5⟩ : vector Int) ∧
    elems (shrink_to_fit int_type [Cell.live [some 1, some 2, some 3, none, none]]
        ⟨some 0, 3, 5⟩).heap
      (shrink_to_fit int_type [Cell.live [some 1, some 2, some 3, none, none]]
        ⟨some 0, 3, 5⟩).self = [1, 2, 3] ∧
    (shrink_to_fit int_type [Cell.live [some 1, some 2, some 3, none, none]]
        ⟨some 0, 3, 5⟩).self.m_capacity = 3 ∧
    (shrink_to_fit int_type [Cell.live (List.replicate 10 none)] ⟨some 0, 0, 10⟩).self.m_capacity
      = 0 :=
  ⟨by decide,
   ((shrink_to_fit_fits int_type [Cell.live [some 1, some 2, some 3, none, none]]
      ⟨some 0, 3, 5⟩ (by decide)).1 (by decide)).2.1,
   ((shrink_to_fit_fits int_type [Cell.live [some 1, some 2, some 3, none, none]]
      ⟨some 0, 3, 5⟩ (by decide)).1 (by decide)).2.2,
   ((shrink_to_fit_fits int_type [Cell.live (List.replicate 10 none)] ⟨some 0, 0, 10⟩
      (by decide)).2.1 rfl).2.2⟩

/-- C12: each of `push_back`, `emplace_back`, `pop_back`, `reserve`, `resize` (growing or
shrinking) and `clear` leaves `m_capacity` greater than or equal to its value before the
call, whether the call returns or throws. -/
theorem capacity_never_decreases {α : Type} (T : ElemType α) (h : Heap α) (v : vector α)
    (value : Option α) (n i : Nat) :
    v.m_capacity ≤ (push_back T h v value).self.m_capacity ∧
    v.m_capacity ≤ (emplace_back T h v value).self.m_capacity ∧
    v.m_capacity ≤ (pop_back h v).self.m_capacity ∧
    v.m_capacity ≤ (reserve T h v n i).self.m_capacity ∧
    v.m_capacity ≤ (resize T h v n i).self.m_capacity ∧
    v.m_capacity ≤ (clear h v).self.m_capacity :=
  ⟨capacity_le_push_back T h v value, capacity_le_emplace_back T h v value,
    Nat.le_refl _, capacity_le_reserve T h v n i, capacity_le_resize T h v n i,
    Nat.le_refl _⟩

/-- C13: `at(idx)` throws the out-of-range error if and only if `idx >= m_size`; when
`idx < m_size` it returns the element stored at index `idx`; in both cases the heap and the
object (length, capacity, elements) are the same after the call. -/
theorem at_checks_range {α : Type} (h : Heap α) (v : vector α) (idx : Nat) :
    ((∃ msg, vector.at h v idx = Except.error msg) ↔ v.m_size ≤ idx) ∧
    ((at_outcome h v idx).threw = true ↔ v.m_size ≤ idx) ∧
    (idx < v.m_size → vector.at h v idx = Except.ok (index h v idx)) ∧
    (WF h v → idx < v.m_size →
      ∃ x, vector.at h v idx = Except.ok (some x) ∧ (elems h v)[idx]? = some x) ∧
    ((at_outcome h v idx).heap = h ∧ (at_outcome h v idx).self = v ∧
      (at_outcome h v idx).self.m_size = v.m_size ∧
      (at_outcome h v idx).self.m_capacity = v.m_capacity ∧
      elems (at_outcome h v idx).heap (at_outcome h v idx).self = elems h v) := by
  refine ⟨⟨fun hex => ?_, fun hle => ?_⟩, by simp [at_outcome], fun hlt => ?_,
    fun hwf hlt => ?_, ⟨rfl, rfl, rfl, rfl, rfl⟩⟩
  · obtain ⟨msg, hmsg⟩ := hex
    by_contra hlt
    have hge : ¬ idx ≥ v.m_size := hlt
    simp [vector.at, hge] at hmsg
  · have hge : idx ≥ v.m_size := hle
    simp only [vector.at, hge, if_true]
    exact ⟨_, rfl⟩
  · have hge : ¬ idx ≥ v.m_size := by omega
    simp only [vector.at, hge, if_false, index]
  · obtain ⟨x, hx, hxs⟩ := wf_index_some h v idx hwf hlt
    have hge : ¬ idx ≥ v.m_size := by omega
    refine ⟨x, ?_, hxs⟩
    simp only [vector.at, hge, if_false]
    rw [← hx]
    rfl

/-- Witness for C13: the test `AtThrowsOutOfRange` on the array `[1, 2]`. -/
theorem at_checks_range_witness :
    WF [Cell.live [some 1, some 2]] (⟨some 0, 2, 2⟩ : vector Int) ∧
    vector.at [Cell.live [some 1, some 2]] (⟨some 0, 2, 2⟩ : vector Int) 1
      = Except.ok (index [Cell.live [some 1, some 2]] (⟨some 0, 2, 2⟩ : vector Int) 1) ∧
    index [Cell.live [some 1, some 2]] (⟨some 0, 2, 2⟩ : vector Int) 1 = some 2 ∧
    (∃ msg, vector.at [Cell.live [some 1, some 2]] (⟨some 0, 2, 2⟩ : vector Int) 2
      = Except.error msg) :=
  ⟨by decide,
   (at_checks_range [Cell.live [some 1, some 2]] (⟨some 0, 2, 2⟩ : vector Int) 1).2.2.1
      (by decide),
   by decide,
   (at_checks_range [Cell.live [some 1, some 2]] (⟨some 0, 2, 2⟩ : vector Int) 2).1.2
      (by decide)⟩

/-- C14: for well-formed arrays, `a == b` is true if and only if `a` and `b` have the same
length and at every index `k < m_size` the elements `a[k]` and `b[k]` compare equal; the
result is determined by the lengths and the elements alone, so it is the same for arrays
with the same elements and other capacities. -/
theorem equality_compares_elements {α : Type} (T : ElemType α) (h : Heap α) (a b : vector α)
    (hwa : WF h a) (hwb : WF h b) :
    (operator_eq T h a b = true ↔
      a.m_size = b.m_size ∧
        ∀ k, k < a.m_size →
          ∃ x y, index h a k = some x ∧ index h b k = some y ∧ T.eq x y = true) ∧
    (∀ (h2 : Heap α) (a2 b2 : vector α), WF h2 a2 → WF h2 b2 →
      elems h2 a2 = elems h a → elems h2 b2 = elems h b →
      operator_eq T h2 a2 b2 = operator_eq T h a b) := by
  refine ⟨?_, fun h2 a2 b2 hwa2 hwb2 hea heb => ?_⟩
  · rw [operator_eq_iff]
    constructor
    · rintro ⟨hs, hall⟩
      refine ⟨hs, fun k hk => ?_⟩
      obtain ⟨x, hx, _⟩ := wf_index_some h a k hwa hk
      obtain ⟨y, hy, _⟩ := wf_index_some h b k hwb (by omega)
      exact ⟨x, y, hx, hy, hall k hk x y hx hy⟩
    · rintro ⟨hs, hall⟩
      refine ⟨hs, fun k hk x y hx hy => ?_⟩
      obtain ⟨x2, y2, hx2, hy2, he⟩ := hall k hk
      rw [hx] at hx2
      rw [hy] at hy2
      cases hx2
      cases hy2
      exact he
  · rw [Bool.eq_iff_iff, operator_eq_iff_elems T h2 a2 b2 hwa2 hwb2,
      operator_eq_iff_elems T h a b hwa hwb, hea, heb]

/-- Witness for C14: the test `EqualityOperator`, with the equal array in a block of larger
capacity. -/
theorem equality_compares_elements_witness :
    WF [Cell.live [some 1, some 2, some 3], Cell.live [some 1, some 2, some 3, none],
      Cell.live [some 1, some 2, some 4]] (⟨some 0, 3, 3⟩ : vector Int) ∧
    operator_eq int_type [Cell.live [some 1, some 2, some 3],
      Cell.live [some 1, some 2, some 3, none], Cell.live [some 1, some 2, some 4]]
      ⟨some 0, 3, 3⟩ ⟨some 1, 3, 4⟩ = true ∧
    ¬ (operator_eq int_type [Cell.live [some 1, some 2, some 3],
      Cell.live [some 1, some 2, some 3, none], Cell.live [some 1, some 2, some 4]]
      ⟨some 0, 3, 3⟩ ⟨some 2, 3, 3⟩ = true) ∧
    ((3 : Nat) = 3 ∧ ∀ k, k < 3 → ∃ x y,
      index [Cell.live [some 1, some 2, some 3], Cell.live [some 1, some 2, some 3, none],
        Cell.live [some 1, some 2, some 4]] (⟨some 0, 3, 3⟩ : vector Int) k = some x ∧
      index [Cell.live [some 1, some 2, some 3], Cell.live [some 1, some 2, some 3, none],
        Cell.live [some 1, some 2, some 4]] (⟨some 1, 3, 4⟩ : vector Int) k = some y ∧
      int_type.eq x y = true) :=
  ⟨by decide, by decide, by decide,
   (equality_compares_elements int_type [Cell.live [some 1, some 2, some 3],
      Cell.live [some 1, some 2, some 3, none], Cell.live [some 1, some 2, some 4]]
      ⟨some 0, 3, 3⟩ ⟨some 1, 3, 4⟩ (by decide) (by decide)).1.1 (by decide)⟩

/-- C15: the fill constructor `vector(n, value)` yields an array with length `n`, capacity
exactly `n` and every element equal to `value`; the initializer-list constructor yields an
array with length `k`, capacity exactly `k` and the `k` elements of the list in order
(`n = 0` and `k = 0` give length 0 and capacity 0).  Each constructor does return when the
allocation succeeds and no element copy throws. -/
theorem fill_and_init_list_construct {α : Type} (T : ElemType α) (h : Heap α) (n : Nat)
    (value : α) (list : List α) :
    (∀ w, (vector_fill T h n value).2 = some w →
      w.m_size = n ∧ w.m_capacity = n ∧
      elems (vector_fill T h n value).1 w = List.replicate n value) ∧
    (∀ w, (vector_init_list T h list).2 = some w →
      w.m_size = list.length ∧ w.m_capacity = list.length ∧
      elems (vector_init_list T h list).1 w = list) ∧
    (T.bad_alloc n = false → T.copy_throws value = false →
      ((vector_fill T h n value).2).isSome = true) ∧
    (T.bad_alloc list.length = false → (∀ y, y ∈ list → T.copy_throws y = false) →
      ((vector_init_list T h list).2).isSome = true) :=
  ⟨fun w hw => (vector_fill_spec T h n value w hw).2,
   fun w hw => (vector_init_list_spec T h list w hw).2,
   fun halloc hT => vector_fill_returns T h n value halloc hT,
   fun halloc hT => vector_init_list_returns T h list halloc hT⟩

/-- Witness for C15: the tests `FillConstructor` (`vector(5, 42)`) and
`InitializerListConstructor` (`{1, 2, 3, 4, 5}`). -/
theorem fill_and_init_list_construct_witness :
    (vector_fill int_type [] 5 42).2 = some ⟨some 0, 5, 5⟩ ∧
    elems (vector_fill int_type [] 5 42).1 ⟨some 0, 5, 5⟩ = List.replicate 5 42 ∧
    (vector_init_list int_type [] [1, 2, 3, 4, 5]).2 = some ⟨some 0, 5, 5⟩ ∧
    elems (vector_init_list int_type [] [1, 2, 3, 4, 5]).1 ⟨some 0, 5, 5⟩
      = [1, 2, 3, 4, 5] :=
  ⟨by decide,
   ((fill_and_init_list_construct int_type [] 5 42 [1, 2, 3, 4, 5]).1 ⟨some 0, 5, 5⟩
      (by decide)).2.2,
   by decide,
   ((fill_and_init_list_construct int_type [] 5 42 [1, 2, 3, 4, 5]).2.1 ⟨some 0, 5, 5⟩
      (by decide)).2.2⟩

/-- C16: on a well-formed non-empty array `pop_back()` returns, decreases the length by
exactly 1, keeps the elements at indices `[0, m_size - 1)` in order and nothing else, and
leaves the capacity unchanged; with at least two elements, `back()` is afterwards the former
second-to-last element. -/
theorem pop_back_removes_last {α : Type} (h : Heap α) (v : vector α) (hwf : WF h v)
    (hne : 0 < v.m_size) :
    (pop_back h v).threw = false ∧
    (pop_back h v).self.m_size + 1 = v.m_size ∧
    elems (pop_back h v).heap (pop_back h v).self = (elems h v).take (v.m_size - 1) ∧
    elems (pop_back h v).heap (pop_back h v).self = (elems h v).dropLast ∧
    (pop_back h v).self.m_capacity = v.m_capacity ∧
    (2 ≤ v.m_size →
      ∃ x, back (pop_back h v).heap (pop_back h v).self = some x ∧
        (elems h v)[v.m_size - 2]? = some x) := by
  have hs := resize_shrink_spec h v (v.m_size - 1) hwf (by omega)
  have hlen := wf_length_elems h v hwf
  rw [pop_back_eq_destroy_range h v hne]
  refine ⟨rfl, by simp only []; omega, hs.2, ?_, rfl, fun h2 => ?_⟩
  · rw [hs.2, List.dropLast_eq_take, hlen]
  · obtain ⟨x, hx, hxs⟩ := wf_index_some _ _ (v.m_size - 1 - 1) hs.1
      (by simp only []; omega)
    refine ⟨x, hx, ?_⟩
    rw [hs.2, List.getElem?_take_of_lt (by omega)] at hxs
    have e : v.m_size - 2 = v.m_size - 1 - 1 := by omega
    rw [e]
    exact hxs

/-- Witness for C16: the test `PopBack` on the array `[1, 2]`. -/
theorem pop_back_removes_last_witness :
    WF [Cell.live [some 1, some 2]] (⟨some 0, 2, 2⟩ : vector Int) ∧
    (pop_back [Cell.live [some 1, some 2]] (⟨some 0, 2, 2⟩ : vector Int)).self.m_size + 1
      = 2 ∧
    elems (pop_back [Cell.live [some 1, some 2]] (⟨some 0, 2, 2⟩ : vector Int)).heap
      (pop_back [Cell.live [some 1, some 2]] (⟨some 0, 2, 2⟩ : vector Int)).self
      = (elems [Cell.live [some 1, some 2]] (⟨some 0, 2, 2⟩ : vector Int)).dropLast ∧
    back (pop_back [Cell.live [some 1, some 2]] (⟨some 0, 2, 2⟩ : vector Int)).heap
      (pop_back [Cell.live [some 1, some 2]] (⟨some 0, 2, 2⟩ : vector Int)).self = some 1 :=
  ⟨by decide,
   (pop_back_removes_last [Cell.live [some 1, some 2]] (⟨some 0, 2, 2⟩ : vector Int)
      (by decide) (by decide)).2.1,
   (pop_back_removes_last [Cell.live [some 1, some 2]] (⟨some 0, 2, 2⟩ : vector Int)
      (by decide) (by decide)).2.2.2.1,
   by decide⟩

/-- C17: `clear()` returns with length 0 and the capacity it had before the call, and the
array stays usable: a following `push_back(x)` that returns gives length 1 with element 0
equal to `x`, and it does return when the allocation (needed only for capacity 0)
succeeds. -/
theorem clear_keeps_capacity {α : Type} (T : ElemType α) (h : Heap α) (v : vector α) (x : α)
    (hwf : WF h v) :
    (clear h v).threw = false ∧
    (clear h v).self.m_size = 0 ∧
    (clear h v).self.m_capacity = v.m_capacity ∧
    elems (clear h v).heap (clear h v).self = [] ∧
    ((push_back T (clear h v).heap (clear h v).self (some x)).threw = false →
      (push_back T (clear h v).heap (clear h v).self (some x)).self.m_size = 1 ∧
      elems (push_back T (clear h v).heap (clear h v).self (some x)).heap
        (push_back T (clear h v).heap (clear h v).self (some x)).self = [x] ∧
      index (push_back T (clear h v).heap (clear h v).self (some x)).heap
        (push_back T (clear h v).heap (clear h v).self (some x)).self 0 = some x) ∧
    (T.bad_alloc (grown_capacity v.m_capacity) = false →
      (push_back T (clear h v).heap (clear h v).self (some x)).threw = false) := by
  have hc := clear_spec h v hwf
  refine ⟨rfl, rfl, rfl, hc.2, fun hok => ?_, fun halloc => ?_⟩
  · have hs := push_back_spec T (clear h v).heap (clear h v).self x hc.1 hok
    have hsz : (push_back T (clear h v).heap (clear h v).self (some x)).self.m_size = 1 := by
      rw [hs.2.1]; rfl
    have hel : elems (push_back T (clear h v).heap (clear h v).self (some x)).heap
        (push_back T (clear h v).heap (clear h v).self (some x)).self = [x] := by
      rw [hs.2.2.1, hc.2]; rfl
    refine ⟨hsz, hel, ?_⟩
    rw [wf_index _ _ 0 hs.1 (by omega), hel]
    rfl
  · exact push_back_returns T (clear h v).heap (clear h v).self x hc.1 halloc
      (Or.inr (fun y hy => by rw [hc.2] at hy; simp at hy))

/-- Witness for C17: the test `ClearDestroysElementsButKeepsCapacity` on `[1, 2, 3, 4]`. -/
theorem clear_keeps_capacity_witness :
    WF [Cell.live [some 1, some 2, some 3, some 4]] (⟨some 0, 4, 4⟩ : vector Int) ∧
    (clear [Cell.live [some 1, some 2, some 3, some 4]]
      (⟨some 0, 4, 4⟩ : vector Int)).self.m_capacity = 4 ∧
    elems (push_back int_type
        (clear [Cell.live [some 1, some 2, some 3, some 4]] ⟨some 0, 4, 4⟩).heap
        (clear [Cell.live [some 1, some 2, some 3, some 4]] ⟨some 0, 4, 4⟩).self
        (some 10)).heap
      (push_back int_type
        (clear [Cell.live [some 1, some 2, some 3, some 4]] ⟨some 0, 4, 4⟩).heap
        (clear [Cell.live [some 1, some 2, some 3, some 4]] ⟨some 0, 4, 4⟩).self
        (some 10)).self = [10] :=
  ⟨by decide,
   (clear_keeps_capacity int_type [Cell.live [some 1, some 2, some 3, some 4]]
      ⟨some 0, 4, 4⟩ 10 (by decide)).2.2.1,
   ((clear_keeps_capacity int_type [Cell.live [some 1, some 2, some 3, some 4]]
      ⟨some 0, 4, 4⟩ 10 (by decide)).2.2.2.2.1 (by decide)).2.1⟩

/-- C18: `clear()` and `shrink_to_fit()` are idempotent on a well-formed array: a second
`clear()` gives the very state the first one gave, and a second `shrink_to_fit()` gives the
same length, capacity and elements as the first one (after a first call that returned it
changes nothing at all). -/
theorem clear_and_shrink_idempotent {α : Type} (T : ElemType α) (h : Heap α) (v : vector α)
    (hwf : WF h v) :
    clear (clear h v).heap (clear h v).self = clear h v ∧
    ((shrink_to_fit T (shrink_to_fit T h v).heap (shrink_to_fit T h v).self).self.m_size
        = (shrink_to_fit T h v).self.m_size ∧
      (shrink_to_fit T (shrink_to_fit T h v).heap (shrink_to_fit T h v).self).self.m_capacity
        = (shrink_to_fit T h v).self.m_capacity ∧
      elems (shrink_to_fit T (shrink_to_fit T h v).heap (shrink_to_fit T h v).self).heap
          (shrink_to_fit T (shrink_to_fit T h v).heap (shrink_to_fit T h v).self).self
        = elems (shrink_to_fit T h v).heap (shrink_to_fit T h v).self) ∧
    ((shrink_to_fit T h v).threw = false →
      shrink_to_fit T (shrink_to_fit T h v).heap (shrink_to_fit T h v).self
        = ⟨false, (shrink_to_fit T h v).heap, (shrink_to_fit T h v).self⟩) := by
  refine ⟨clear_clear h v, shrink_to_fit_twice T h v hwf, fun hok => ?_⟩
  have hs := shrink_to_fit_spec T h v hwf hok
  have hfit : (shrink_to_fit T h v).self.m_size = (shrink_to_fit T h v).self.m_capacity := by
    rw [hs.2.1, hs.2.2.2]
  generalize shrink_to_fit T h v = o at hfit
  simp only [shrink_to_fit, hfit, if_true]

/-- Witness for C18: `[1, 2, 3]` with capacity 5, cleared twice and shrunk twice. -/
theorem clear_and_shrink_idempotent_witness :
    WF [Cell.live [some 1, some 2, some 3, none, none]] (⟨some 0, 3, 5⟩ : vector Int) ∧
    clear (clear [Cell.live [some 1, some 2, some 3, none, none]]
        (⟨some 0, 3, 5⟩ : vector Int)).heap
      (clear [Cell.live [some 1, some 2, some 3, none, none]]
        (⟨some 0, 3, 5⟩ : vector Int)).self
      = clear [Cell.live [some 1, some 2, some 3, none, none]] ⟨some 0, 3, 5⟩ ∧
    (shrink_to_fit int_type
        (shrink_to_fit int_type [Cell.live [some 1, some 2, some 3, none, none]]
          ⟨some 0, 3, 5⟩).heap
        (shrink_to_fit int_type [Cell.live [some 1, some 2, some 3, none, none]]
          ⟨some 0, 3, 5⟩).self).self.m_capacity
      = (shrink_to_fit int_type [Cell.live [some 1, some 2, some 3, none, none]]
          ⟨some 0, 3, 5⟩).self.m_capacity :=
  ⟨by decide,
   (clear_and_shrink_idempotent int_type [Cell.live [some 1, some 2, some 3, none, none]]
      ⟨some 0, 3, 5⟩ (by decide)).1,
   (clear_and_shrink_idempotent int_type [Cell.live [some 1, some 2, some 3, none, none]]
      ⟨some 0, 3, 5⟩ (by decide)).2.1.2.1⟩

/-- C19 (the code at the failing input): `push_back(5)` on the full array `[1, 13]` of a type
that is relocated by copy and whose copy constructor throws on `13`.  The call throws and
the array is untouched, but the released new block still holds the new element `5` as a
constructed object: the catch block's loop runs up to `constructed`, which is still 0.
`emplace_back` on the same input releases a block without objects. -/
theorem push_back_relocation_failure_leaks_new_element :
    (push_back throwing_type [Cell.live [some 1, some 13]] ⟨some 0, 2, 2⟩ (some 5)).threw
      = true ∧
    (push_back throwing_type [Cell.live [some 1, some 13]] ⟨some 0, 2, 2⟩ (some 5)).self
      = ⟨some 0, 2, 2⟩ ∧
    (push_back throwing_type [Cell.live [some 1, some 13]] ⟨some 0, 2, 2⟩ (some 5)).heap
      = [Cell.live [some 1, some 13], Cell.freed [none, none, some 5, none]] ∧
    (emplace_back throwing_type [Cell.live [some 1, some 13]] ⟨some 0, 2, 2⟩ (some 5)).heap
      = [Cell.live [some 1, some 13], Cell.freed [none, none, none, none]] := by
  decide

/-- C20 (the code at the failing input): `reserve(4)` on the full array `[1, 2]`.  When the
uninitialised counter of the clean-up loop starts at 0 both old elements are destroyed
before the old block is released; when it starts at 1 the element at index 0 is still
constructed at release, and when it starts at 2 or above both are. -/
theorem reserve_cleanup_depends_on_counter :
    (reserve throwing_type [Cell.live [some 1, some 2]] ⟨some 0, 2, 2⟩ 4 0).heap
      = [Cell.freed [none, none], Cell.live [some 1, some 2, none, none]] ∧
    (reserve throwing_type [Cell.live [some 1, some 2]] ⟨some 0, 2, 2⟩ 4 1).threw = false ∧
    (reserve throwing_type [Cell.live [some 1, some 2]] ⟨some 0, 2, 2⟩ 4 1).heap
      = [Cell.freed [some 1, none], Cell.live [some 1, some 2, none, none]] ∧
    (reserve throwing_type [Cell.live [some 1, some 2]] ⟨some 0, 2, 2⟩ 4 2).heap
      = [Cell.freed [some 1, some 2], Cell.live [some 1, some 2, none, none]] := by
  decide

end dev
